import Mathlib

/-!
Verification development for the tabular data-preparation engine of the
`data_prepo_front` repository (source: `src/utils/dataProcessor.ts` and the
autopilot `runAutomation` in the pipeline page).

Modelling conventions (shallow embedding of the TypeScript source):

* A cell value is one of number, string, boolean, or the uniform missing
  sentinel.  The source represents missing as `null`, `undefined` or the
  empty string `''` and filters all three with the same test
  (`v !== null && v !== undefined && v !== ''`); following §3 of the design
  notes they are modelled by a single constructor `Cell.missing` (with the
  empty string `Cell.str ""` also counting as missing, exactly as the
  source's filter does).  An absent object key (`undefined` on lookup) is
  the `none` case of `getCell`.
* JS numbers are modelled by exact rationals `ℚ`.  All arithmetic the
  claims exercise (sums, quotients, comparisons against the fixed design
  thresholds 0.8, 10, 40, 0.25, 0.75, rounding to 2 or 4 decimal places)
  is exact at these inputs, and at the decision thresholds the IEEE-754
  computation of the source agrees with the rational value, so `ℚ` is a
  faithful carrier.  `Math.round x` is `⌊x + 1/2⌋`.
* `std = Math.sqrt variance` is irrational in general, so the statistics
  record stores `variance` (`std = 0` iff `variance = 0`, which is the only
  guard the source ever applies to `std`), and the skewness
  `skew = (n/((n-1)(n-2))) · Σ((v-mean)/std)³ = skewNum / variance^(3/2)`
  is stored as the rational numerator `skewNum` together with the flag
  `skewIsNaN` (the source divides `0/0` when `variance = 0` and `n > 2`,
  yielding `NaN`).  The threshold tests `|skew| < 0.5` and `|skew| < 1`
  are encoded by the equivalent rational inequalities
  `4·skewNum² < variance³` and `skewNum² < variance³` (squaring both sides;
  the `skewNum = 0` disjunct covers the `variance = 0, n ≤ 2` case where
  the skewness is literally `0`); a `NaN` skewness fails both tests, as in
  IEEE-754 comparison semantics.
-/

set_option linter.unusedVariables false

/-- Cell values of the tabular store: number, text, boolean, or the uniform
missing sentinel (`null` / `undefined` / `''` of the source). -/
inductive Cell where
  | num (q : ℚ)
  | str (s : String)
  | bool (b : Bool)
  | missing
  deriving DecidableEq, Repr

/-- A row is a JS object: an insertion-ordered association list from column
names to cell values (`Record<string, unknown>` in the source). -/
abbrev Row : Type := List (String × Cell)

/-- Property lookup `row[name]`; `none` models `undefined` (absent key). -/
def getCell : Row → String → Option Cell
  | [], _ => none
  | (k, v) :: rest, c => if c = k then some v else getCell rest c

/-- Spread-update `{...row, [name]: v}`: replaces the value of an existing
key in place (JS objects keep the original key position) or appends a fresh
key at the end. -/
def setCell : Row → String → Cell → Row
  | [], k, v => [(k, v)]
  | (k1, v1) :: rest, k, v =>
      if k1 = k then (k1, v) :: rest else (k1, v1) :: setCell rest k v

/-- Rest-destructuring `const { [col]: _, ...rest } = row`: drops the key. -/
def removeKey (r : Row) (k : String) : Row := r.filter (fun e => e.1 ≠ k)

/-- Key list of a row, `Object.keys(row)`. -/
def rowKeys (r : Row) : List String := r.map (fun e => e.1)

/-- The source's missing test on a cell value:
`v === null || v === undefined || v === ''`.  `Cell.missing` stands for
`null`, and the empty string is the same sentinel. -/
def isMissingCell : Cell → Bool
  | .missing => true
  | .str s => s = ""
  | _ => false

/-- Missing test on a lookup result (`undefined` for an absent key also
counts as missing). -/
def missingOpt : Option Cell → Bool
  | none => true
  | some c => isMissingCell c

/-! ### Numeric coercion of JS values

`Number(v)` and `parseFloat(String(v))` on the cell universe.  The string
parser handles plain decimal literals `[sign] digits [. digits]`, which is
the shape of every numeric token this dataset pipeline produces (exponent
and hexadecimal forms are not modelled). -/

/-- Numeric value of a digit character. -/
def digitVal (c : Char) : ℕ := c.toNat - 48

/-- Natural number denoted by a list of decimal digit characters. -/
def natOfDigits (l : List Char) : ℕ := l.foldl (fun a c => 10 * a + digitVal c) 0

/-- Parse an unsigned decimal literal prefix; returns the value and the
unconsumed remainder, or `none` when no digits are present at all. -/
def parseUnsigned (cs : List Char) : Option (ℚ × List Char) :=
  let intd := cs.takeWhile Char.isDigit
  let rest := cs.dropWhile Char.isDigit
  match rest with
  | '.' :: rest2 =>
      let frac := rest2.takeWhile Char.isDigit
      let rest3 := rest2.dropWhile Char.isDigit
      if intd = [] ∧ frac = [] then none
      else some ((natOfDigits intd : ℚ) + (natOfDigits frac : ℚ) / (10 : ℚ) ^ frac.length, rest3)
  | _ => if intd = [] then none else some ((natOfDigits intd : ℚ), rest)

/-- Parse an optionally signed decimal literal prefix. -/
def parseSigned (cs : List Char) : Option (ℚ × List Char) :=
  match cs with
  | '-' :: rest => (parseUnsigned rest).map (fun p => (-p.1, p.2))
  | '+' :: rest => parseUnsigned rest
  | _ => parseUnsigned cs

/-- Model of `Number(s)` on a string: whitespace-only is `0`, otherwise the entire
(trimmed) string must be a decimal literal; `none` models `NaN`. -/
def strNumber (s : String) : Option ℚ :=
  let t := (s.trim).toList
  if t = [] then some 0
  else match parseSigned t with
    | some (q, []) => some q
    | _ => none

/-- Model of `parseFloat(s)`: longest decimal-literal prefix after leading
whitespace; trailing garbage is ignored; `none` models `NaN`. -/
def strParseFloat (s : String) : Option ℚ :=
  match parseSigned (s.trim).toList with
  | some (q, _) => some q
  | none => none

/-- Coercion `Number(row[column])` as used by the outlier and scaling operators:
numbers pass through, `null`/`''` coerce to `0`, booleans to `1`/`0`,
strings through `Number`, and an absent key (`undefined`) is `NaN`. -/
def jsNumber : Option Cell → Option ℚ
  | none => none
  | some (.num q) => some q
  | some (.str s) => strNumber s
  | some (.bool b) => some (if b then 1 else 0)
  | some .missing => some 0

/-- Coercion `typeof v === 'number' ? v : parseFloat(String(v))` as used by
`computeColumnStats`: `String(null) = 'null'`, `String('') = ''` and
`String(bool)` all fail `parseFloat`, so only numbers and numeric-prefixed
strings survive. -/
def statNumber : Option Cell → Option ℚ
  | some (.num q) => some q
  | some (.str s) => strParseFloat s
  | _ => none

/-- Decimal rendering of a JS number used as a string key.  Only
injectivity and non-emptiness of the rendering are semantically
load-bearing (keys are compared for equality and used as generated column
names); integers render as in JS, non-integral rationals use a
`num/den` form in place of JS's decimal expansion. -/
def numToString (q : ℚ) : String :=
  if q.den = 1 then toString q.num else toString q.num ++ "/" ++ toString q.den

/-- Key `String(c)` for a non-missing cell value. -/
def cellKeyC : Cell → String
  | .num q => numToString q
  | .str s => s
  | .bool b => if b then "true" else "false"
  | .missing => ""

/-- Key `String(row[col] ?? '')`: absent keys and `null` become `''`. -/
def cellKeyD (o : Option Cell) : String :=
  match o with
  | none => ""
  | some c => if c = .missing then "" else cellKeyC c

/-- Key `String(row[col])` without the `?? ''` default (used by
`ordinalEncode` and `labelEncode`'s lookup): `String(undefined)` is the
text `undefined` and `String(null)` the text `null` (we pin the `null`
spelling of the uniform missing sentinel). -/
def cellKeyRaw (o : Option Cell) : String :=
  match o with
  | none => "undefined"
  | some .missing => "null"
  | some c => cellKeyC c

/-- Rounding `Math.round x` (half away toward `+∞`) of the source. -/
def jsRound (q : ℚ) : ℤ := ⌊q + 1 / 2⌋

/-- Rounding `Math.round(x * 100) / 100`: round to 2 decimal places. -/
def round2 (q : ℚ) : ℚ := (jsRound (q * 100) : ℚ) / 100

/-- Rounding `Math.round(x * 10000) / 10000`: round to 4 decimal places. -/
def round4 (q : ℚ) : ℚ := (jsRound (q * 10000) : ℚ) / 10000

/-! ### Column metadata (`buildDatasetInfo` / `detectColumnType`) -/

/-- Inferred column type. -/
inductive ColType where
  | numeric | categorical | datetime | boolean | unknown
  deriving DecidableEq, Repr

/-- Substring-at-head test on character lists. -/
def startsWithSeq : List Char → List Char → Bool
  | [], _ => true
  | _ :: _, [] => false
  | a :: as, b :: bs => a = b ∧ startsWithSeq as bs

/-- Substring containment test on character lists (`String.includes`). -/
def hasSubSeq (n : List Char) : List Char → Bool
  | [] => n.isEmpty
  | c :: t => startsWithSeq n (c :: t) || hasSubSeq n t

/-- JS `name.includes(k)` on strings. -/
def strIncludes (name k : String) : Bool := hasSubSeq k.toList name.toList

/-- One sampled value counts as numeric-like:
`typeof v === 'number' || (typeof v === 'string' && !isNaN(Number(v)) && v.trim() !== '')`. -/
def numericLike : Cell → Bool
  | .num _ => true
  | .str s => (strNumber s).isSome && s.trim ≠ ""
  | _ => false

/-- One sampled value counts as boolean-like:
`typeof v === 'boolean' || (typeof v === 'string' && ['true','false','0','1'].includes(v.toLowerCase()))`. -/
def boolLike : Cell → Bool
  | .bool _ => true
  | .str s => s.toLower = "true" ∨ s.toLower = "false" ∨ s.toLower = "0" ∨ s.toLower = "1"
  | _ => false

/-- Type inference `detectColumnType`: sample up to 100 non-missing values; a strict-80%
majority of numeric-like values makes the column numeric, else of
boolean-like values boolean, else categorical.  The float comparison
`count / sample.length > 0.8` is modelled by the exact
`5 * count > 4 * length` (they agree: at an exact ratio of 4/5 both sides
round to the same double, and away from it the gap dwarfs rounding). -/
def detectColumnType (values : List Cell) : ColType :=
  if values = [] then .unknown
  else
    let sample := values.take 100
    let numericCount := (sample.filter numericLike).length
    if 4 * sample.length < 5 * numericCount then .numeric
    else
      let boolCount := (sample.filter boolLike).length
      if 4 * sample.length < 5 * boolCount then .boolean
      else .categorical

/-- Per-column metadata of the dataset (`DataColumn` in the source). -/
structure DataColumn where
  name : String
  type : ColType
  nullCount : ℕ
  nullPercentage : ℚ
  uniqueCount : ℕ
  sampleValues : List Cell
  deriving DecidableEq, Repr

/-- First-occurrence deduplication of a list of keys (`new Set(...)`
iteration order). -/
def uniqFirst : List String → List String → List String
  | [], _ => []
  | x :: xs, seen => if x ∈ seen then uniqFirst xs seen else x :: uniqFirst xs (x :: seen)

/-- The non-missing cells of one column, in row order. -/
def nonNullCells (data : List Row) (name : String) : List Cell :=
  data.filterMap (fun r =>
    match getCell r name with
    | some c => if isMissingCell c then none else some c
    | none => none)

/-- Number of rows whose cell in the column is missing. -/
def nullCountCol (data : List Row) (name : String) : ℕ :=
  (data.filter (fun r => missingOpt (getCell r name))).length

/-- Metadata of one column as computed by `buildDatasetInfo`. -/
def buildColumn (data : List Row) (name : String) : DataColumn :=
  let nonNull := nonNullCells data name
  let nullCount := data.length - nonNull.length
  { name := name
    type := detectColumnType nonNull
    nullCount := nullCount
    nullPercentage := if data.length = 0 then 0 else (nullCount : ℚ) / (data.length : ℚ) * 100
    uniqueCount := (uniqFirst (nonNull.map cellKeyC) []).length
    sampleValues := nonNull.take 5 }

/-- Dataset value (`DatasetInfo` in the source). -/
structure DatasetInfo where
  rows : ℕ
  columns : ℕ
  columnInfo : List DataColumn
  data : List Row
  headers : List String
  deriving DecidableEq, Repr

/-- Dataset construction `buildDatasetInfo(data, headers)`. -/
def buildDatasetInfo (data : List Row) (headers : List String) : DatasetInfo :=
  { rows := data.length
    columns := headers.length
    columnInfo := headers.map (buildColumn data)
    data := data
    headers := headers }

/-! ### Column statistics (`computeColumnStats`) -/

/-- Column statistics snapshot.  `variance` stands in for
`std = √variance`, and the pair `(skewNum, skewIsNaN)` for the skewness
`skewNum / variance^(3/2)` (see the module docstring). -/
structure ColumnStats where
  mean : ℚ
  median : ℚ
  mode : ℚ
  variance : ℚ
  min : ℚ
  max : ℚ
  q1 : ℚ
  q3 : ℚ
  iqr : ℚ
  skewNum : ℚ
  skewIsNaN : Bool
  isNormal : Bool
  isSymmetric : Bool
  deriving DecidableEq, Repr

/-- Statistics `computeColumnStats(data, column)`: collect values with
`typeof v === 'number' ? v : parseFloat(String(v))`, drop `NaN`, sort
ascending, and compute the descriptive statistics.  The nearest-rank
quartile indices `Math.floor(n * 0.25)` and `Math.floor(n * 0.75)` are the
exact `n / 4` and `3 * n / 4` (0.25 and 0.75 are exact doubles).  The mode
is the first key of maximal frequency in the string-keyed frequency map
built by traversing the sorted values (the spec's canonical smallest-value
tie-break). -/
def computeColumnStats (data : List Row) (column : String) : Option ColumnStats :=
  let values := data.filterMap (fun r => statNumber (getCell r column))
  if values = [] then none
  else
    let sorted := List.insertionSort (· ≤ ·) values
    let n := sorted.length
    let mean := sorted.sum / (n : ℚ)
    let median :=
      if n % 2 = 0 then ((sorted.getD (n / 2 - 1) 0) + sorted.getD (n / 2) 0) / 2
      else sorted.getD (n / 2) 0
    let variance := (sorted.map (fun v => (v - mean) ^ 2)).sum / (n : ℚ)
    let q1 := sorted.getD (n / 4) 0
    let q3 := sorted.getD (3 * n / 4) 0
    let skewIsNaN : Bool := decide (2 < n) && decide (variance = 0)
    let skewNum :=
      if 2 < n ∧ variance ≠ 0 then
        ((n : ℚ) / (((n : ℚ) - 1) * ((n : ℚ) - 2))) * (sorted.map (fun v => (v - mean) ^ 3)).sum
      else 0
    let maxFreq := (sorted.map (fun v => sorted.count v)).foldl Nat.max 0
    let mode := (sorted.find? (fun v => sorted.count v = maxFreq)).getD mean
    some
      { mean := mean
        median := median
        mode := mode
        variance := variance
        min := sorted.getD 0 0
        max := sorted.getD (n - 1) 0
        q1 := q1
        q3 := q3
        iqr := q3 - q1
        skewNum := skewNum
        skewIsNaN := skewIsNaN
        isNormal := !skewIsNaN && decide (skewNum = 0 ∨ 4 * skewNum ^ 2 < variance ^ 3)
        isSymmetric := !skewIsNaN && decide (skewNum = 0 ∨ skewNum ^ 2 < variance ^ 3) }

/-! ### Quality detectors -/

/-- Result of `detectOutliersIQR`. -/
structure OutlierResult where
  outlierIndices : List ℕ
  lowerBound : ℚ
  upperBound : ℚ
  deriving DecidableEq, Repr

/-- Detector `detectOutliersIQR(data, column)`: Tukey fence
`[q1 - 1.5·iqr, q3 + 1.5·iqr]`; a row is an outlier iff `Number(row[col])`
parses and falls strictly outside the fence. -/
def detectOutliersIQR (data : List Row) (column : String) : OutlierResult :=
  match computeColumnStats data column with
  | none => ⟨[], 0, 0⟩
  | some st =>
      let lb := st.q1 - 3 / 2 * st.iqr
      let ub := st.q3 + 3 / 2 * st.iqr
      ⟨(data.enum.filterMap (fun p =>
          match jsNumber (getCell p.2 column) with
          | some v => if v < lb ∨ ub < v then some p.1 else none
          | none => none)), lb, ub⟩

/-! ### Duplicate removal -/

/-- Worker for `removeDuplicates`: `seen` is the set of row serializations
already encountered (`JSON.stringify` is injective on our cell universe, so
the row value itself is the key). -/
def removeDupsGo (seen : List Row) : List Row → List Row × ℕ
  | [] => ([], 0)
  | r :: rest =>
      if r ∈ seen then
        let p := removeDupsGo seen rest
        (p.1, p.2 + 1)
      else
        let p := removeDupsGo (r :: seen) rest
        (r :: p.1, p.2)

/-- Deduplication `removeDuplicates(data)`: keeps the first occurrence of each duplicate
group, order-preserving; the second component is the number of dropped rows. -/
def removeDuplicates (data : List Row) : List Row × ℕ := removeDupsGo [] data

/-! ### Missing-value imputation -/

/-- Imputation `imputeByMean`: no-op when the column has no valid numeric values;
otherwise replaces each missing cell with the mean rounded to 2 decimals.
(The source also replaces `NaN`-valued number cells, which do not arise in
the modelled cell universe.) -/
def imputeByMean (data : List Row) (column : String) : List Row :=
  match computeColumnStats data column with
  | none => data
  | some st =>
      data.map (fun r =>
        if missingOpt (getCell r column) then setCell r column (.num (round2 st.mean)) else r)

/-- Imputation `imputeByMedian`: as `imputeByMean` but with the (unrounded) median. -/
def imputeByMedian (data : List Row) (column : String) : List Row :=
  match computeColumnStats data column with
  | none => data
  | some st =>
      data.map (fun r =>
        if missingOpt (getCell r column) then setCell r column (.num st.median) else r)

/-- The string-keyed mode of the non-missing values of a column: first key
of maximal frequency in the frequency map (insertion order = first
occurrence in row order); `''` when there are no non-missing values
(`Math.max()` of nothing is `-Infinity`, so the `find` fails and the
`?? ''` default applies). -/
def modeKey (data : List Row) (column : String) : String :=
  let keys := (nonNullCells data column).map cellKeyC
  match keys.find? (fun k => keys.count k = (keys.map (fun k2 => keys.count k2)).foldl Nat.max 0) with
  | some k => k
  | none => ""

/-- Imputation `imputeByMode`: replaces each missing cell with the most frequent
non-missing value, as a string. -/
def imputeByMode (data : List Row) (column : String) : List Row :=
  let mode := modeKey data column
  data.map (fun r =>
    if missingOpt (getCell r column) then setCell r column (.str mode) else r)

/-- Imputation `imputeByConstant`: replaces each missing cell with the caller-supplied
literal. -/
def imputeByConstant (data : List Row) (column : String) (constant : Cell) : List Row :=
  data.map (fun r =>
    if missingOpt (getCell r column) then setCell r column constant else r)

/-! ### Outlier treatment -/

/-- Treatment `treatOutliersIQR`: clamp parseable values to the Tukey fence; cells
whose `Number(...)` is `NaN` are untouched. -/
def treatOutliersIQR (data : List Row) (column : String) : List Row :=
  let d := detectOutliersIQR data column
  data.map (fun r =>
    match jsNumber (getCell r column) with
    | none => r
    | some v =>
        if v < d.lowerBound then setCell r column (.num d.lowerBound)
        else if d.upperBound < v then setCell r column (.num d.upperBound)
        else r)

/-- Treatment `treatOutliersWinsor`: clamp to the nearest-rank `lowerPerc`/`upperPerc`
percentile values of the sorted parseable values (`Math.floor(n·p/100)` is
the exact `n * p / 100` in `ℕ`); no-op when no value parses. -/
def treatOutliersWinsor (data : List Row) (column : String) (lowerPerc upperPerc : ℕ) : List Row :=
  let values := data.filterMap (fun r => jsNumber (getCell r column))
  if values = [] then data
  else
    let sorted := List.insertionSort (· ≤ ·) values
    let lowerVal := sorted.getD (sorted.length * lowerPerc / 100) (sorted.getD 0 0)
    let upperVal := sorted.getD (sorted.length * upperPerc / 100) (sorted.getD (sorted.length - 1) 0)
    data.map (fun r =>
      match jsNumber (getCell r column) with
      | none => r
      | some v =>
          if v < lowerVal then setCell r column (.num lowerVal)
          else if upperVal < v then setCell r column (.num upperVal)
          else r)

/-- Treatment `treatOutliersZScore`: no-op when stats are unavailable or `std = 0`
(`variance = 0`); otherwise replaces values with `|z| > threshold` by the
mean if `isNormal` else the median, rounded to 2 decimals.  The float test
`|v - mean| / std > t` is encoded as `(v - mean)² > t² · variance`
(equivalent for `std > 0`). -/
def treatOutliersZScore (data : List Row) (column : String) (threshold : ℚ) : List Row :=
  match computeColumnStats data column with
  | none => data
  | some st =>
      if st.variance = 0 then data
      else
        let replacement := if st.isNormal then st.mean else st.median
        data.map (fun r =>
          match jsNumber (getCell r column) with
          | none => r
          | some v =>
              if threshold ^ 2 * st.variance < (v - st.mean) ^ 2 then
                setCell r column (.num (round2 replacement))
              else r)

/-! ### Encoding -/

/-- Inner loop of `oneHotEncode` over the first-seen unique values of the
source column: for each value `val` append a fresh `{col}_{val}` column
holding `1`/`0`. -/
def oneHotAddCols (col : String) (rows : List Row) : List String → List Row
  | [] => rows
  | val :: rest =>
      oneHotAddCols col
        (rows.map (fun row =>
          setCell row (col ++ "_" ++ val) (.num (if cellKeyD (getCell row col) = val then 1 else 0))))
        rest

/-- Encoding `oneHotEncode(data, columns)`: per column, for each unique value of
`String(row[col] ?? '')` (missing cells contribute the `''` key) append a
`{col}_{val}` indicator column, then drop the source column.  Returns the
encoded rows and the list of generated column names. -/
def oneHotEncode (data : List Row) (columns : List String) : List Row × List String :=
  columns.foldl
    (fun acc col =>
      let uniqueVals := uniqFirst (acc.1.map (fun r => cellKeyD (getCell r col))) []
      ((oneHotAddCols col acc.1 uniqueVals).map (fun row => removeKey row col),
        acc.2 ++ uniqueVals.map (fun v => col ++ "_" ++ v)))
    (data, [])

/-- Index of a key in the caller-supplied order list; the source builds the
map with `order.forEach((val, i) => mapping[val] = i)`, so a duplicated
order entry keeps its last index. -/
def ordinalIndex (order : List String) (k : String) : Option ℕ :=
  order.enum.foldl (fun acc p => if p.2 = k then some p.1 else acc) none

/-- Encoding `ordinalEncode(data, column, order)`: map each value (keyed by
`String(row[column])`, no default) to its rank in `order`; unknown values
map to `-1`. -/
def ordinalEncode (data : List Row) (column : String) (order : List String) : List Row :=
  data.map (fun row =>
    setCell row column (.num (((ordinalIndex order (cellKeyRaw (getCell row column))).map
      (fun i => (i : ℚ))).getD (-1))))

/-- Encoding `labelEncode(data, column)`: map each unique value (first-seen order of
`String(row[column] ?? '')`) to its 0-based index; the lookup key omits the
`?? ''` default, exactly as in the source. -/
def labelEncode (data : List Row) (column : String) : List Row × List (String × ℕ) :=
  let uniqueVals := uniqFirst (data.map (fun r => cellKeyD (getCell r column))) []
  (data.map (fun row =>
    setCell row column (.num (((ordinalIndex uniqueVals (cellKeyRaw (getCell row column))).map
      (fun i => (i : ℚ))).getD (-1)))),
    uniqueVals.enum.map (fun p => (p.2, p.1)))

/-! ### Scaling -/

/-- Minimum of a nonempty list modelled after `Math.min(...values)`
(`0` as a dummy for the empty list, which the callers never pass). -/
def qMin : List ℚ → ℚ
  | [] => 0
  | x :: xs => xs.foldl min x

/-- Maximum, as `qMin`. -/
def qMax : List ℚ → ℚ
  | [] => 0
  | x :: xs => xs.foldl max x

/-- One column step of `minMaxScale`: `(v - min) / (max - min)` rounded to
4 decimals for every parseable cell; no-op when the range is `0`.  When no
cell parses the source computes an infinite range and then touches no cell,
so the result is likewise unchanged (modelled by the explicit empty
guard). -/
def minMaxScaleCol (data : List Row) (col : String) : List Row :=
  let values := data.filterMap (fun r => jsNumber (getCell r col))
  if values = [] then data
  else
    let mn := qMin values
    let mx := qMax values
    if mx - mn = 0 then data
    else
      data.map (fun row =>
        match jsNumber (getCell row col) with
        | none => row
        | some v => setCell row col (.num (round4 ((v - mn) / (mx - mn)))))

/-- Scaling `minMaxScale(data, columns)`. -/
def minMaxScale (data : List Row) (columns : List String) : List Row :=
  columns.foldl minMaxScaleCol data

/-- Floor of the square root of a nonnegative rational:
`⌊√(num/den)⌋ = ⌊√(num·den)/den⌋ = ⌊√(num·den)⌋/den`. -/
def ratSqrtFloor (q : ℚ) : ℤ :=
  if q < 0 then 0 else ((Nat.sqrt (q.num.toNat * q.den)) / q.den : ℕ)

/-- Computation of `⌊t / √var⌋` for `var > 0`, via `ratSqrtFloor` (negative numerators use
`⌊-y⌋ = -⌊y⌋ - 1` unless `y` is exactly integral). -/
def floorDivSqrt (t v : ℚ) : ℤ :=
  if 0 ≤ t then ratSqrtFloor (t ^ 2 / v)
  else
    let f := ratSqrtFloor (t ^ 2 / v)
    if (f : ℚ) ^ 2 * v = t ^ 2 then -f else -f - 1

/-- Computation of `Math.round(t / √var)` for `var > 0`:
`⌊t/√var + 1/2⌋ = ⌊(⌊2t/√var⌋ + 1) / 2⌋`. -/
def jsRoundDivSqrt (t v : ℚ) : ℤ := ((floorDivSqrt (2 * t) v) + 1).fdiv 2

/-- The standard-scaled cell value
`Math.round(((v - mean) / std) * 10000) / 10000` with `std = √variance`,
computed exactly. -/
def stdScaledVal (mean variance v : ℚ) : ℚ :=
  (jsRoundDivSqrt ((v - mean) * 10000) variance : ℚ) / 10000

/-- One column step of `standardScale`: no-op when stats are unavailable or
`std = 0`; otherwise replaces every parseable cell by its rounded z-score. -/
def standardScaleCol (data : List Row) (col : String) : List Row :=
  match computeColumnStats data col with
  | none => data
  | some st =>
      if st.variance = 0 then data
      else
        data.map (fun row =>
          match jsNumber (getCell row col) with
          | none => row
          | some v => setCell row col (.num (stdScaledVal st.mean st.variance v)))

/-- Scaling `standardScale(data, columns)` (stats are recomputed from the evolving
result, as in the source). -/
def standardScale (data : List Row) (columns : List String) : List Row :=
  columns.foldl standardScaleCol data

/-- One column step of `robustScale`: `(v - median) / iqr` rounded to 4
decimals; no-op when stats are unavailable or `iqr = 0`. -/
def robustScaleCol (data : List Row) (col : String) : List Row :=
  match computeColumnStats data col with
  | none => data
  | some st =>
      if st.iqr = 0 then data
      else
        data.map (fun row =>
          match jsNumber (getCell row col) with
          | none => row
          | some v => setCell row col (.num (round4 ((v - st.median) / st.iqr))))

/-- Scaling `robustScale(data, columns)`. -/
def robustScale (data : List Row) (columns : List String) : List Row :=
  columns.foldl robustScaleCol data

/-! ### Manual encoding step (`EncodingStep.handleApply`, ordinal branch) -/

/-- Parse the user-supplied ordinal order text box:
`orderStr.split(',').map(s => s.trim()).filter(Boolean)`. -/
def parseOrderInput (s : String) : List String :=
  ((s.splitOn ",").map String.trim).filter (fun t => t ≠ "")

/-- The ordinal branch of the encoding step's apply handler: an empty
parsed order is rejected with an alert and the handler returns without
touching the table (the alert text is modelled without its apostrophe). -/
def applyOrdinalEncoding (data : List Row) (colName : String) (orderStr : String) :
    Except String (List Row) :=
  let order := parseOrderInput orderStr
  if order = [] then .error "Definissez lordre des categories"
  else .ok (ordinalEncode data colName order)

/-! ### Autopilot (`runAutomation`)

The decision engine mirrors the source phase by phase.  Note that the
`Missing` phase iterates over (and branches on) `dataset.columnInfo`, the
column metadata of the dataset *as it was when autopilot was invoked*,
i.e. computed before deduplication, while statistics and outlier detection
run on the evolving working data. -/

/-- Imputation method selected by the autopilot `Missing` phase. -/
inductive ImputeMethod where
  | mean | median | mode | drop
  deriving DecidableEq, Repr

/-- The method-selection block of the `Missing` phase for one column:
`col` carries the pre-dedup metadata (`nullCount`, `nullPercentage`,
`type`), `current` is the working data. -/
def autoMissingMethod (current : List Row) (col : DataColumn) : ImputeMethod :=
  let stats := if col.type = .numeric then computeColumnStats current col.name else none
  let outliers := if col.type = .numeric then (detectOutliersIQR current col.name).outlierIndices else []
  if 40 < col.nullPercentage then .drop
  else if col.type = .categorical then .mode
  else
    match stats with
    | some st =>
        if st.isSymmetric ∧ outliers = [] ∧ col.nullPercentage < 10 then .mean else .median
    | none => .mode

/-- Application of a selected missing-value method to the working data. -/
def applyMissingMethod (m : ImputeMethod) (current : List Row) (name : String) : List Row :=
  match m with
  | .mean => imputeByMean current name
  | .median => imputeByMedian current name
  | .mode => imputeByMode current name
  | .drop => current.filter (fun r => ¬ missingOpt (getCell r name))

/-- One column of the autopilot `Missing` phase. -/
def autoMissingStep (current : List Row) (col : DataColumn) : List Row :=
  applyMissingMethod (autoMissingMethod current col) current col.name

/-- The autopilot `Missing` phase: all columns with `nullCount > 0`
(per the invocation-time metadata), in table order. -/
def autoMissingPhase (info : List DataColumn) (current : List Row) : List Row :=
  (info.filter (fun c => 0 < c.nullCount)).foldl autoMissingStep current

/-- One column of the autopilot `Outliers` phase. -/
def autoOutlierStep (current : List Row) (colName : String) : List Row :=
  match computeColumnStats current colName with
  | none => current
  | some st =>
      if (detectOutliersIQR current colName).outlierIndices = [] then current
      else if st.isNormal then treatOutliersZScore current colName 3
      else if st.isSymmetric then treatOutliersIQR current colName
      else treatOutliersWinsor current colName 5 95

/-- Target-column name heuristics of the autopilot `Encoding` phase. -/
def targetKeywords : List String :=
  ["target", "label", "outcome", "y", "class", "churn", "survived", "price_range"]

/-- One column of the autopilot `Encoding` phase: label-encode detected
target columns, ordinal-encode high-cardinality columns with the
lexicographically sorted distinct values as auto-order, else one-hot. -/
def autoEncodingStep (current : List Row) (col : DataColumn) : List Row :=
  let lower := col.name.toLower
  if targetKeywords.any (fun k => strIncludes lower k) then
    (labelEncode current col.name).1
  else if 15 < col.uniqueCount then
    let order := List.insertionSort (· ≤ ·)
      (uniqFirst (current.map (fun r => cellKeyRaw (getCell r col.name))) [])
    ordinalEncode current col.name order
  else
    (oneHotEncode current [col.name]).1

/-- One column of the autopilot `Scaling` phase. -/
def autoScalingStep (current : List Row) (colName : String) : List Row :=
  match computeColumnStats current colName with
  | none => current
  | some st =>
      let outliers := (detectOutliersIQR current colName).outlierIndices
      if st.isNormal ∧ outliers = [] then standardScale current [colName]
      else if outliers ≠ [] then robustScale current [colName]
      else minMaxScale current [colName]

/-- Autopilot `runAutomation` over a dataset value: deduplicate, then run the
Missing / Outliers / Encoding / Scaling phases (numeric and categorical
column lists are captured from the invocation-time metadata).  The journal
strings are not modelled; each phase appends one entry per treated column. -/
def runAutomation (ds : DatasetInfo) : List Row :=
  let numericCols := (ds.columnInfo.filter (fun c => c.type = .numeric)).map (fun c => c.name)
  let catCols := ds.columnInfo.filter (fun c => c.type = .categorical)
  let d0 := (removeDuplicates ds.data).1
  let d1 := autoMissingPhase ds.columnInfo d0
  let d2 := numericCols.foldl autoOutlierStep d1
  let d3 := catCols.foldl autoEncodingStep d2
  numericCols.foldl autoScalingStep d3

/-! ### Spec-side definitions (for refinement claims)

These next definitions follow the words of the specification, not the
source; each claim's theorem compares them with the embedded source. -/

/-- Modelled from the spec (claim C1 wording): the Missing-phase decision
rule with `null_count` / `null_percentage` evaluated against the given
working data (the spec says this is the state after deduplication).  Type
information still comes from the dataset metadata. -/
def specMissingRulePost (d : List Row) (ctype : ColType) (name : String) : ImputeMethod :=
  let nc := nullCountCol d name
  let pct : ℚ := if d.length = 0 then 0 else (nc : ℚ) / (d.length : ℚ) * 100
  if 40 < pct then .drop
  else if ctype = .categorical then .mode
  else
    match computeColumnStats d name with
    | some st =>
        if st.isSymmetric ∧ (detectOutliersIQR d name).outlierIndices = [] ∧ pct < 10 then .mean
        else .median
    | none => .mode

/-- Modelled from the spec (claim C1, amended): the same decision rule but
with `null_percentage` taken from the invocation-time column metadata
(computed before deduplication), statistics and outliers from the working
data — which is what the source implements. -/
def specMissingRulePre (current : List Row) (col : DataColumn) : ImputeMethod :=
  if 40 < col.nullPercentage then .drop
  else if col.type = .categorical then .mode
  else
    match computeColumnStats current col.name with
    | some st =>
        if st.isSymmetric ∧ (detectOutliersIQR current col.name).outlierIndices = [] ∧
            col.nullPercentage < 10 then .mean
        else .median
    | none => .mode

/-- The parseable numeric values of one column under `Number(...)`
coercion, in row order (the `values` list of the scaling and winsorization
operators). -/
def colNumValues (data : List Row) (col : String) : List ℚ :=
  data.filterMap (fun r => jsNumber (getCell r col))

/-! ## Helper lemmas on rows -/

theorem getCell_setCell_self (r : Row) (k : String) (v : Cell) :
    getCell (setCell r k v) k = some v := by
  induction r with
  | nil => simp [setCell, getCell]
  | cons e rest ih =>
      obtain ⟨k1, v1⟩ := e
      by_cases h : k1 = k
      · simp [setCell, h, getCell]
      · simp [setCell, h, getCell, Ne.symm h, ih]

theorem getCell_setCell_ne (r : Row) (k : String) (v : Cell) (c : String) (h : c ≠ k) :
    getCell (setCell r k v) c = getCell r c := by
  induction r with
  | nil => simp [setCell, getCell, h]
  | cons e rest ih =>
      obtain ⟨k1, v1⟩ := e
      by_cases h1 : k1 = k
      · subst h1
        simp [setCell, getCell, h, ih]
      · by_cases h2 : c = k1 <;> simp [setCell, getCell, h1, h2, ih]

theorem getCell_eq_none_of_not_mem (r : Row) (k : String) (h : k ∉ rowKeys r) :
    getCell r k = none := by
  induction r with
  | nil => simp [getCell]
  | cons e rest ih =>
      obtain ⟨k1, v1⟩ := e
      simp only [rowKeys, List.map_cons, List.mem_cons] at h
      push_neg at h
      simp [getCell, h.1, ih (by simpa [rowKeys] using h.2)]

theorem setCell_of_not_mem (r : Row) (k : String) (v : Cell) (h : k ∉ rowKeys r) :
    setCell r k v = r ++ [(k, v)] := by
  induction r with
  | nil => simp [setCell]
  | cons e rest ih =>
      obtain ⟨k1, v1⟩ := e
      simp only [rowKeys, List.map_cons, List.mem_cons] at h
      push_neg at h
      simp [setCell, Ne.symm h.1, ih (by simpa [rowKeys] using h.2)]

theorem rowKeys_setCell_of_mem (r : Row) (k : String) (v : Cell) (h : k ∈ rowKeys r) :
    rowKeys (setCell r k v) = rowKeys r := by
  induction r with
  | nil => simp [rowKeys] at h
  | cons e rest ih =>
      obtain ⟨k1, v1⟩ := e
      by_cases h1 : k1 = k
      · simp [setCell, h1, rowKeys]
      · simp only [rowKeys, List.map_cons, List.mem_cons] at h
        rcases h with h | h
        · exact absurd h.symm h1
        · have ih2 := ih (by simpa [rowKeys] using h)
          simp only [rowKeys] at ih2
          simp [setCell, h1, rowKeys, ih2]

theorem getCell_removeKey_ne (r : Row) (k c : String) (h : c ≠ k) :
    getCell (removeKey r k) c = getCell r c := by
  induction r with
  | nil => simp [removeKey, getCell]
  | cons e rest ih =>
      obtain ⟨k1, v1⟩ := e
      by_cases h1 : k1 = k
      · subst h1
        simp [removeKey, getCell, h, ih] at ih ⊢
        simpa [removeKey] using ih
      · by_cases h2 : c = k1 <;>
          simp [removeKey, getCell, h1, h2] <;> simpa [removeKey] using ih

theorem rowKeys_removeKey (r : Row) (k : String) :
    rowKeys (removeKey r k) = (rowKeys r).filter (fun c => c ≠ k) := by
  induction r with
  | nil => simp [removeKey, rowKeys]
  | cons e rest ih =>
      obtain ⟨k1, v1⟩ := e
      by_cases h1 : k1 = k <;>
        simp [removeKey, rowKeys, h1, List.filter] at ih ⊢ <;> simpa [removeKey, rowKeys] using ih

theorem getD_map_of_lt {α β : Type} (l : List α) (f : α → β) (i : ℕ) (d : α) (d2 : β)
    (h : i < l.length) : (l.map f).getD i d2 = f (l.getD i d) := by
  rw [List.getD_eq_getElem _ _ (by simpa using h), List.getD_eq_getElem _ _ h]
  simp

theorem getD_mem_of_lt {α : Type} (l : List α) (i : ℕ) (d : α) (h : i < l.length) :
    l.getD i d ∈ l := by
  rw [List.getD_eq_getElem _ _ h]
  exact List.getElem_mem h

/-! ## Duplicate-removal lemmas -/

theorem removeDupsGo_sublist (l : List Row) : ∀ seen, (removeDupsGo seen l).1.Sublist l := by
  induction l with
  | nil => intro seen; simp [removeDupsGo]
  | cons r rest ih =>
      intro seen
      by_cases h : r ∈ seen
      · simp only [removeDupsGo, h, if_pos]
        exact (ih seen).cons r
      · simp only [removeDupsGo, h, if_neg, not_false_iff]
        exact (ih (r :: seen)).cons₂ r

theorem removeDupsGo_nodup (l : List Row) :
    ∀ seen, (removeDupsGo seen l).1.Nodup ∧ ∀ r ∈ (removeDupsGo seen l).1, r ∉ seen := by
  induction l with
  | nil => intro seen; simp [removeDupsGo]
  | cons r rest ih =>
      intro seen
      by_cases h : r ∈ seen
      · simp only [removeDupsGo, h, if_pos]
        exact ih seen
      · simp only [removeDupsGo, h, if_neg, not_false_iff]
        obtain ⟨hnd, hmem⟩ := ih (r :: seen)
        refine ⟨List.nodup_cons.mpr ⟨fun hc => ?_, hnd⟩, ?_⟩
        · exact (hmem r hc) (List.mem_cons_self r seen)
        · intro x hx
          rcases List.mem_cons.mp hx with hx | hx
          · exact hx ▸ h
          · intro hxs
            exact (hmem x hx) (List.mem_cons_of_mem r hxs)

theorem removeDupsGo_mem (l : List Row) :
    ∀ seen r, r ∈ l → r ∉ seen → r ∈ (removeDupsGo seen l).1 := by
  induction l with
  | nil => intro seen r h; simp at h
  | cons x rest ih =>
      intro seen r hr hrs
      by_cases h : x ∈ seen
      · simp only [removeDupsGo, h, if_pos]
        rcases List.mem_cons.mp hr with hr | hr
        · exact absurd (hr ▸ h) hrs
        · exact ih seen r hr hrs
      · simp only [removeDupsGo, h, if_neg, not_false_iff]
        rcases List.mem_cons.mp hr with hr | hr
        · exact hr ▸ List.mem_cons_self x _
        · by_cases hrx : r = x
          · exact hrx ▸ List.mem_cons_self x _
          · exact List.mem_cons_of_mem x
              (ih (x :: seen) r hr (by simp [hrx, hrs]))

theorem removeDupsGo_length (l : List Row) :
    ∀ seen, (removeDupsGo seen l).2 + (removeDupsGo seen l).1.length = l.length := by
  induction l with
  | nil => intro seen; simp [removeDupsGo]
  | cons r rest ih =>
      intro seen
      by_cases h : r ∈ seen
      · simp only [removeDupsGo, h, if_pos, List.length_cons]
        have := ih seen
        omega
      · simp only [removeDupsGo, h, if_neg, not_false_iff, List.length_cons]
        have := ih (r :: seen)
        omega

theorem removeDupsGo_of_nodup (l : List Row) :
    ∀ seen, l.Nodup → (∀ r ∈ l, r ∉ seen) → removeDupsGo seen l = (l, 0) := by
  induction l with
  | nil => intro seen h1 h2; simp [removeDupsGo]
  | cons r rest ih =>
      intro seen h1 h2
      have hr : r ∉ seen := h2 r (List.mem_cons_self r rest)
      simp only [removeDupsGo, hr, if_neg, not_false_iff]
      rw [ih (r :: seen) (List.nodup_cons.mp h1).2]
      · intro x hx
        simp only [List.mem_cons]
        push_neg
        exact ⟨fun hxr => (List.nodup_cons.mp h1).1 (hxr ▸ hx),
          h2 x (List.mem_cons_of_mem r hx)⟩

/-! ## Claim theorems -/

/-- Claim C4: on the column of values `[1,2,3,4,5,100]`, the nearest-rank
quartiles are `q1 = sorted[1] = 2` and `q3 = sorted[4] = 5` (so `iqr = 3`),
the IQR fence is `[-2.5, 9.5]`, and the outlier indices are exactly the
position of the value `100` (index 5). -/
theorem detectOutliersIQR_fence_example :
    (computeColumnStats
        [[("v", .num 1)], [("v", .num 2)], [("v", .num 3)],
          [("v", .num 4)], [("v", .num 5)], [("v", .num 100)]] "v").map
        (fun st => (st.q1, st.q3, st.iqr)) = some (2, 5, 3) ∧
      detectOutliersIQR
        [[("v", .num 1)], [("v", .num 2)], [("v", .num 3)],
          [("v", .num 4)], [("v", .num 5)], [("v", .num 100)]] "v" =
        ⟨[5], -5/2, 19/2⟩ := by
  with_unfolding_all decide

/-- Claim C6: deduplication is idempotent — re-running `removeDuplicates`
on a cleaned table returns it unchanged with `removed = 0`; moreover the
cleaned table is an order-preserving sublist of the input containing (the
first occurrence of) every input row, and the removed count is exactly the
number of dropped rows. -/
theorem removeDuplicates_idem (d : List Row) :
    removeDuplicates (removeDuplicates d).1 = ((removeDuplicates d).1, 0) ∧
      (removeDuplicates d).1.Sublist d ∧
      d ⊆ (removeDuplicates d).1 ∧
      (removeDuplicates d).2 + (removeDuplicates d).1.length = d.length := by
  refine ⟨?_, removeDupsGo_sublist d [], ?_, removeDupsGo_length d []⟩
  · exact removeDupsGo_of_nodup _ [] (removeDupsGo_nodup d []).1 (by simp)
  · intro r hr
    exact removeDupsGo_mem d [] r hr (by simp)

/-- Claim C8, counterexample: invoking `imputeByConstant` with a column
name absent from the table raises no error and does *not* leave the table
unchanged — it appends the column, filled with the constant, to every row. -/
theorem imputeByConstant_absent_column_cex :
    imputeByConstant [[("A", .num 1)]] "B" (.num 7) = [[("A", .num 1), ("B", .num 7)]] ∧
      imputeByConstant [[("A", .num 1)]] "B" (.num 7) ≠ [[("A", .num 1)]] := by
  with_unfolding_all decide

/-- Claim C8, amended: the operators perform no column-name validation and
never raise.  A stats-based imputation (`mean` / `median`) over an absent
column degenerates to a no-op with the table unchanged, while
`imputeByConstant` treats every (absent, hence `undefined`) cell as missing
and appends the column with the constant to every row. -/
theorem absent_column_behavior (data : List Row) (col : String) (c : Cell)
    (h : ∀ r ∈ data, col ∉ rowKeys r) :
    imputeByMean data col = data ∧ imputeByMedian data col = data ∧
      imputeByConstant data col c = data.map (fun r => r ++ [(col, c)]) := by
  have hnone : ∀ r ∈ data, getCell r col = none := fun r hr =>
    getCell_eq_none_of_not_mem r col (h r hr)
  have hvals : data.filterMap (fun r => statNumber (getCell r col)) = [] := by
    rw [List.filterMap_eq_nil]
    intro r hr
    rw [hnone r hr]
    rfl
  have hstats : computeColumnStats data col = none := by
    rw [computeColumnStats, hvals]
    rfl
  refine ⟨?_, ?_, ?_⟩
  · rw [imputeByMean, hstats]
  · rw [imputeByMedian, hstats]
  · rw [imputeByConstant]
    apply List.map_congr_left
    intro r hr
    rw [hnone r hr]
    simp only [missingOpt, if_pos]
    exact setCell_of_not_mem r col c (h r hr)

/-- Witness for `absent_column_behavior` at a concrete table. -/
theorem absent_column_behavior_witness :
    (∀ r ∈ [[("A", Cell.num 1)], [("A", Cell.num 2)]], "B" ∉ rowKeys r) ∧
      (imputeByMean [[("A", Cell.num 1)], [("A", Cell.num 2)]] "B" =
          [[("A", Cell.num 1)], [("A", Cell.num 2)]] ∧
        imputeByMedian [[("A", Cell.num 1)], [("A", Cell.num 2)]] "B" =
          [[("A", Cell.num 1)], [("A", Cell.num 2)]] ∧
        imputeByConstant [[("A", Cell.num 1)], [("A", Cell.num 2)]] "B" (.str "x") =
          ([[("A", Cell.num 1)], [("A", Cell.num 2)]].map (fun r => r ++ [("B", Cell.str "x")]))) :=
  ⟨by with_unfolding_all decide,
    absent_column_behavior _ "B" (.str "x") (by with_unfolding_all decide)⟩

/-- Claim C9: the encoding step's apply handler rejects an ordinal
invocation whose parsed category-order list is empty: the error is surfaced
(the alert) and no encoded table is produced. -/
theorem ordinal_empty_order_aborts (data : List Row) (colName orderStr : String)
    (h : parseOrderInput orderStr = []) :
    applyOrdinalEncoding data colName orderStr = .error "Definissez lordre des categories" := by
  rw [applyOrdinalEncoding, h]
  rfl

/-- Witness for `ordinal_empty_order_aborts` on the empty order text. -/
theorem ordinal_empty_order_aborts_witness :
    parseOrderInput "" = [] ∧
      applyOrdinalEncoding [[("A", Cell.str "a")]] "A" "" =
        .error "Definissez lordre des categories" :=
  ⟨by with_unfolding_all decide, ordinal_empty_order_aborts _ "A" "" (by with_unfolding_all decide)⟩

/-! ## Imputation lemmas -/

theorem toDigitsCore_length_ge (fuel n : ℕ) : ∀ ds : List Char,
    ds.length ≤ (Nat.toDigitsCore 10 fuel n ds).length := by
  induction fuel generalizing n with
  | zero => intro ds; simp [Nat.toDigitsCore]
  | succ f ih =>
      intro ds
      rw [Nat.toDigitsCore]
      by_cases h : n / 10 = 0
      · simp [h]
      · simp only [h, if_neg, not_false_iff]
        calc ds.length ≤ (Nat.digitChar (n % 10) :: ds).length := by simp
          _ ≤ _ := ih (n / 10) _

theorem toDigits_length_pos (n : ℕ) : 0 < (Nat.toDigits 10 n).length := by
  rw [Nat.toDigits, Nat.toDigitsCore]
  by_cases h : n / 10 = 0
  · simp [h]
  · simp only [h, if_neg, not_false_iff]
    calc 0 < (Nat.digitChar (n % 10) :: []).length := by simp
      _ ≤ _ := toDigitsCore_length_ge n (n / 10) _

theorem natRepr_ne_empty (n : ℕ) : Nat.repr n ≠ "" := by
  intro h
  have h2 : (Nat.toDigits 10 n) = [] := by
    have := congrArg String.data h
    simpa [Nat.repr, List.asString] using this
  have := toDigits_length_pos n
  rw [h2] at this
  simp at this

theorem intRepr_ne_empty (n : ℤ) : toString n ≠ "" := by
  cases n with
  | ofNat m =>
      show toString m ≠ ""
      exact natRepr_ne_empty m
  | negSucc m =>
      show "-" ++ toString (m + 1) ≠ ""
      intro h
      have := congrArg String.data h
      simp [String.data_append] at this

theorem numToString_ne_empty (q : ℚ) : numToString q ≠ "" := by
  rw [numToString]
  by_cases h : q.den = 1
  · simp only [h, if_pos]
    exact intRepr_ne_empty q.num
  · simp only [h, if_neg, not_false_iff]
    intro h2
    have := congrArg String.data h2
    simp [String.data_append] at this

theorem cellKeyC_ne_empty (c : Cell) (h : isMissingCell c = false) : cellKeyC c ≠ "" := by
  cases c with
  | num q => exact numToString_ne_empty q
  | str s => simpa [isMissingCell] using h
  | bool b => cases b <;> simp [cellKeyC]
  | missing => simp [isMissingCell] at h

theorem foldl_natMax_init_le (l : List ℕ) : ∀ a : ℕ, a ≤ l.foldl Nat.max a := by
  induction l with
  | nil => intro a; simp
  | cons x xs ih =>
      intro a
      calc a ≤ Nat.max a x := Nat.le_max_left a x
        _ ≤ _ := ih (Nat.max a x)

theorem foldl_natMax_ge_mem (l : List ℕ) : ∀ a : ℕ, ∀ x ∈ l, x ≤ l.foldl Nat.max a := by
  induction l with
  | nil => intro a x hx; simp at hx
  | cons y ys ih =>
      intro a x hx
      rcases List.mem_cons.mp hx with hx | hx
      · subst hx
        calc x ≤ Nat.max a x := Nat.le_max_right a x
          _ ≤ _ := foldl_natMax_init_le ys (Nat.max a x)
      · exact ih (Nat.max a y) x hx

theorem foldl_natMax_attained (l : List ℕ) : ∀ a : ℕ,
    l.foldl Nat.max a = a ∨ l.foldl Nat.max a ∈ l := by
  induction l with
  | nil => intro a; simp
  | cons x xs ih =>
      intro a
      rcases ih (Nat.max a x) with h | h
      · rcases Nat.le_total a x with h2 | h2
        · right
          simp only [List.foldl_cons]
          rw [h, show Nat.max a x = x by unfold Nat.max; exact max_eq_right h2]
          exact List.mem_cons_self x xs
        · left
          simp only [List.foldl_cons]
          rw [h, show Nat.max a x = a by unfold Nat.max; exact max_eq_left h2]
      · right
        simp only [List.foldl_cons]
        exact List.mem_cons_of_mem x h

theorem modeKey_ne_empty (data : List Row) (col : String) (h2 : nonNullCells data col ≠ []) :
    modeKey data col ≠ "" := by
  rw [modeKey]
  set keys := (nonNullCells data col).map cellKeyC with hkeys
  have hne : keys ≠ [] := by
    rw [hkeys]
    simpa using h2
  set maxFreq := (keys.map (fun k2 => keys.count k2)).foldl Nat.max 0 with hmf
  have hex : ∃ k ∈ keys, keys.count k = maxFreq := by
    rcases foldl_natMax_attained (keys.map (fun k2 => keys.count k2)) 0 with h | h
    · obtain ⟨k0, hk0⟩ := List.exists_mem_of_ne_nil keys hne
      have h1 : 0 < keys.count k0 := List.count_pos_iff.mpr hk0
      have h3 : keys.count k0 ≤ maxFreq :=
        foldl_natMax_ge_mem _ 0 _ (List.mem_map_of_mem _ hk0)
      rw [hmf, h] at h3
      omega
    · obtain ⟨k0, hk0, hcount⟩ := List.mem_map.mp h
      exact ⟨k0, hk0, hcount⟩
  obtain ⟨k0, hk0, hcount⟩ := hex
  have hfind : (keys.find? (fun k => keys.count k = maxFreq)).isSome := by
    rw [List.find?_isSome]
    exact ⟨k0, hk0, by simpa using hcount⟩
  obtain ⟨k1, hk1⟩ := Option.isSome_iff_exists.mp hfind
  rw [hk1]
  have hk1mem : k1 ∈ keys := List.mem_of_find?_eq_some hk1
  obtain ⟨c0, hc0, rfl⟩ := List.mem_map.mp hk1mem
  have hc0nm : isMissingCell c0 = false := by
    rw [nonNullCells] at hc0
    obtain ⟨r, hr, hrc⟩ := List.mem_filterMap.mp hc0
    cases hg : getCell r col with
    | none => rw [hg] at hrc; simp at hrc
    | some c1 =>
        rw [hg] at hrc
        by_cases hm : isMissingCell c1
        · simp [hm] at hrc
        · simp only [hm, if_neg, not_false_iff, Bool.false_eq_true, Option.some.injEq] at hrc
          rw [← hrc]
          simpa using hm
  exact cellKeyC_ne_empty c0 hc0nm

theorem removeKey_setCell (r : Row) (k : String) (v : Cell) :
    removeKey (setCell r k v) k = removeKey r k := by
  induction r with
  | nil => simp [setCell, removeKey]
  | cons e rest ih =>
      obtain ⟨k1, v1⟩ := e
      by_cases h : k1 = k
      · simp [setCell, h, removeKey, List.filter]
      · simp [setCell, h, removeKey, List.filter] at ih ⊢
        simpa [removeKey] using ih

theorem imputeShape_nullCount (data : List Row) (col : String) (v : Cell)
    (hv : isMissingCell v = false) :
    nullCountCol
      (data.map (fun r => if missingOpt (getCell r col) then setCell r col v else r)) col = 0 := by
  rw [nullCountCol, List.length_eq_zero, List.filter_eq_nil_iff]
  intro row hrow
  obtain ⟨r, hr, rfl⟩ := List.mem_map.mp hrow
  by_cases hm : missingOpt (getCell r col) = true
  · rw [if_pos hm, getCell_setCell_self]
    simp [missingOpt, hv]
  · rw [if_neg hm]
    simp [hm]

theorem imputeShape_proj (data : List Row) (col : String) (v : Cell) :
    (data.map (fun r => if missingOpt (getCell r col) then setCell r col v else r)).map
        (fun r => removeKey r col) =
      data.map (fun r => removeKey r col) := by
  rw [List.map_map]
  apply List.map_congr_left
  intro r hr
  by_cases hm : missingOpt (getCell r col) = true
  · simp only [Function.comp, hm, if_pos]
    exact removeKey_setCell r col v
  · simp [Function.comp, hm]

theorem computeColumnStats_isSome (data : List Row) (col : String)
    (h : data.filterMap (fun r => statNumber (getCell r col)) ≠ []) :
    ∃ st, computeColumnStats data col = some st := by
  simp only [computeColumnStats]
  rw [if_neg h]
  exact ⟨_, rfl⟩

/-- Claim C5, counterexample: `imputeByMean` on a column with no valid
numeric value (here: a single missing cell) is a no-op, so `null_count`
stays `1`, not `0` as the claim states for every table. -/
theorem impute_empty_column_cex :
    imputeByMean [[("A", Cell.missing)]] "A" = [[("A", Cell.missing)]] ∧
      nullCountCol (imputeByMean [[("A", Cell.missing)]] "A") "A" = 1 := by
  with_unfolding_all decide

/-- Claim C5, amended: each imputation leaves `null_count = 0` under its
own soft-no-op condition — `mean`/`median` provided the column has at
least one valid numeric value, `mode` provided it has at least one
non-missing value, `constant` provided the constant is itself non-missing —
and in every case no column other than the target is modified in any row
(projecting the target column away yields the identical table; row count is
preserved). -/
theorem impute_nullcount_zero (data : List Row) (col : String) (c : Cell) :
    (data.filterMap (fun r => statNumber (getCell r col)) ≠ [] →
        (nullCountCol (imputeByMean data col) col = 0 ∧
          (imputeByMean data col).map (fun r => removeKey r col) =
            data.map (fun r => removeKey r col) ∧
          (imputeByMean data col).length = data.length) ∧
        (nullCountCol (imputeByMedian data col) col = 0 ∧
          (imputeByMedian data col).map (fun r => removeKey r col) =
            data.map (fun r => removeKey r col) ∧
          (imputeByMedian data col).length = data.length)) ∧
      (nonNullCells data col ≠ [] →
        nullCountCol (imputeByMode data col) col = 0 ∧
          (imputeByMode data col).map (fun r => removeKey r col) =
            data.map (fun r => removeKey r col) ∧
          (imputeByMode data col).length = data.length) ∧
      (isMissingCell c = false →
        nullCountCol (imputeByConstant data col c) col = 0 ∧
          (imputeByConstant data col c).map (fun r => removeKey r col) =
            data.map (fun r => removeKey r col) ∧
          (imputeByConstant data col c).length = data.length) := by
  refine ⟨?_, ?_, ?_⟩
  · intro h1
    obtain ⟨st, hst⟩ := computeColumnStats_isSome data col h1
    refine ⟨⟨?_, ?_, ?_⟩, ⟨?_, ?_, ?_⟩⟩
    · simp only [imputeByMean, hst]
      exact imputeShape_nullCount data col _ rfl
    · simp only [imputeByMean, hst]
      exact imputeShape_proj data col _
    · simp only [imputeByMean, hst]
      exact List.length_map data _
    · simp only [imputeByMedian, hst]
      exact imputeShape_nullCount data col _ rfl
    · simp only [imputeByMedian, hst]
      exact imputeShape_proj data col _
    · simp only [imputeByMedian, hst]
      exact List.length_map data _
  · intro h2
    have hmode_ne : isMissingCell (.str (modeKey data col)) = false := by
      simp [isMissingCell, modeKey_ne_empty data col h2]
    refine ⟨?_, ?_, ?_⟩
    · simp only [imputeByMode]
      exact imputeShape_nullCount data col _ hmode_ne
    · simp only [imputeByMode]
      exact imputeShape_proj data col _
    · simp only [imputeByMode]
      exact List.length_map data _
  · intro h3
    refine ⟨?_, ?_, ?_⟩
    · simp only [imputeByConstant]
      exact imputeShape_nullCount data col c h3
    · simp only [imputeByConstant]
      exact imputeShape_proj data col c
    · simp only [imputeByConstant]
      exact List.length_map data _

/-- Witness for `impute_nullcount_zero`, exercising each operator under its
own condition: `mean`/`median` on a column with one parseable value, `mode`
on a purely categorical column (no numeric value at all), and `constant`
on an all-missing column. -/
theorem impute_nullcount_zero_witness :
    ([[("A", Cell.missing), ("B", Cell.num 2)],
        [("A", Cell.str "1.5"), ("B", Cell.num 3)]].filterMap
          (fun r => statNumber (getCell r "A")) ≠ []) ∧
      nullCountCol (imputeByMean [[("A", Cell.missing), ("B", Cell.num 2)],
        [("A", Cell.str "1.5"), ("B", Cell.num 3)]] "A") "A" = 0 ∧
      nullCountCol (imputeByMedian [[("A", Cell.missing), ("B", Cell.num 2)],
        [("A", Cell.str "1.5"), ("B", Cell.num 3)]] "A") "A" = 0 ∧
      (nonNullCells [[("A", Cell.str "a")], [("A", Cell.missing)]] "A" ≠ []) ∧
      nullCountCol (imputeByMode [[("A", Cell.str "a")], [("A", Cell.missing)]] "A") "A" = 0 ∧
      isMissingCell (Cell.num 7) = false ∧
      nullCountCol (imputeByConstant [[("A", Cell.missing)]] "A" (Cell.num 7)) "A" = 0 :=
  ⟨by with_unfolding_all decide,
    (((impute_nullcount_zero [[("A", Cell.missing), ("B", Cell.num 2)],
        [("A", Cell.str "1.5"), ("B", Cell.num 3)]] "A" (Cell.num 7)).1
      (by with_unfolding_all decide)).1).1,
    (((impute_nullcount_zero [[("A", Cell.missing), ("B", Cell.num 2)],
        [("A", Cell.str "1.5"), ("B", Cell.num 3)]] "A" (Cell.num 7)).1
      (by with_unfolding_all decide)).2).1,
    by with_unfolding_all decide,
    ((impute_nullcount_zero [[("A", Cell.str "a")], [("A", Cell.missing)]] "A"
        (Cell.num 7)).2.1 (by with_unfolding_all decide)).1,
    by with_unfolding_all decide,
    ((impute_nullcount_zero [[("A", Cell.missing)]] "A" (Cell.num 7)).2.2
      (by with_unfolding_all decide)).1⟩

/-! ## Scaling lemmas -/

theorem foldl_min_le_init (l : List ℚ) : ∀ a : ℚ, l.foldl min a ≤ a := by
  induction l with
  | nil => intro a; simp
  | cons x xs ih =>
      intro a
      calc xs.foldl min (min a x) ≤ min a x := ih (min a x)
        _ ≤ a := min_le_left a x

theorem foldl_min_le_mem (l : List ℚ) : ∀ a : ℚ, ∀ x ∈ l, l.foldl min a ≤ x := by
  induction l with
  | nil => intro a x hx; simp at hx
  | cons y ys ih =>
      intro a x hx
      rcases List.mem_cons.mp hx with hx | hx
      · subst hx
        calc ys.foldl min (min a x) ≤ min a x := foldl_min_le_init ys (min a x)
          _ ≤ x := min_le_right a x
      · exact ih (min a y) x hx

theorem foldl_max_init_le (l : List ℚ) : ∀ a : ℚ, a ≤ l.foldl max a := by
  induction l with
  | nil => intro a; simp
  | cons x xs ih =>
      intro a
      calc a ≤ max a x := le_max_left a x
        _ ≤ xs.foldl max (max a x) := ih (max a x)

theorem foldl_max_mem_le (l : List ℚ) : ∀ a : ℚ, ∀ x ∈ l, x ≤ l.foldl max a := by
  induction l with
  | nil => intro a x hx; simp at hx
  | cons y ys ih =>
      intro a x hx
      rcases List.mem_cons.mp hx with hx | hx
      · subst hx
        calc x ≤ max a x := le_max_right a x
          _ ≤ ys.foldl max (max a x) := foldl_max_init_le ys (max a x)
      · exact ih (max a y) x hx

theorem qMin_le_mem (l : List ℚ) (x : ℚ) (h : x ∈ l) : qMin l ≤ x := by
  cases l with
  | nil => simp at h
  | cons y ys =>
      rcases List.mem_cons.mp h with h | h
      · subst h
        exact foldl_min_le_init ys x
      · exact foldl_min_le_mem ys y x h

theorem mem_le_qMax (l : List ℚ) (x : ℚ) (h : x ∈ l) : x ≤ qMax l := by
  cases l with
  | nil => simp at h
  | cons y ys =>
      rcases List.mem_cons.mp h with h | h
      · subst h
        exact foldl_max_init_le ys x
      · exact foldl_max_mem_le ys y x h

theorem round4_nonneg (x : ℚ) (h : 0 ≤ x) : 0 ≤ round4 x := by
  rw [round4, jsRound]
  apply div_nonneg _ (by norm_num)
  have : (0 : ℤ) ≤ ⌊x * 10000 + 1 / 2⌋ := Int.floor_nonneg.mpr (by positivity)
  exact_mod_cast this

theorem round4_le_one (x : ℚ) (h : x ≤ 1) : round4 x ≤ 1 := by
  rw [round4, jsRound]
  rw [div_le_one (by norm_num)]
  have h1 : x * 10000 + 1 / 2 ≤ 10000 + 1 / 2 := by linarith
  have h2 : ⌊x * 10000 + 1 / 2⌋ ≤ ⌊(10000 : ℚ) + 1 / 2⌋ := Int.floor_le_floor h1
  have h3 : ⌊(10000 : ℚ) + 1 / 2⌋ = 10000 := by
    rw [Int.floor_eq_iff]
    norm_num
  rw [h3] at h2
  exact_mod_cast h2

theorem round4_zero_val : round4 0 = 0 := by
  rw [round4, jsRound]
  have : ⌊(0 : ℚ) * 10000 + 1 / 2⌋ = 0 := by
    rw [Int.floor_eq_iff]
    norm_num
  rw [this]
  norm_num

theorem round4_one_val : round4 1 = 1 := by
  rw [round4, jsRound]
  have : ⌊(1 : ℚ) * 10000 + 1 / 2⌋ = 10000 := by
    rw [Int.floor_eq_iff]
    norm_num
  rw [this]
  norm_num

theorem colNumValues_def (data : List Row) (col : String) :
    colNumValues data col = data.filterMap (fun r => jsNumber (getCell r col)) := rfl

theorem minMaxScaleCol_noop (d : List Row) (c : String)
    (h : qMin (colNumValues d c) = qMax (colNumValues d c)) : minMaxScaleCol d c = d := by
  rw [minMaxScaleCol]
  by_cases he : d.filterMap (fun r => jsNumber (getCell r c)) = []
  · rw [if_pos he]
  · rw [if_neg he]
    have : qMax (colNumValues d c) - qMin (colNumValues d c) = 0 := by rw [h]; ring
    rw [colNumValues] at this
    rw [if_pos this]

/-- Claim C7: when the column's parseable values (under the operator's own
`Number(...)` coercion) have a nondegenerate range, `min_max` scaling maps
the cell of every row whose value parses to
`round4 ((v - min) / (max - min)) ∈ [0, 1]`, with a minimal value mapping to
exactly `0` and a maximal value to exactly `1`; when `max = min` the
operation leaves the table unchanged. -/
theorem minMaxScale_unit_interval (data : List Row) (col : String) (i : ℕ) (v : ℚ)
    (hv : jsNumber (getCell (data.getD i []) col) = some v)
    (hne : qMin (colNumValues data col) ≠ qMax (colNumValues data col)) :
    (minMaxScale data [col]).length = data.length ∧
      getCell ((minMaxScale data [col]).getD i []) col =
        some (.num (round4 ((v - qMin (colNumValues data col)) /
          (qMax (colNumValues data col) - qMin (colNumValues data col))))) ∧
      (0 ≤ round4 ((v - qMin (colNumValues data col)) /
          (qMax (colNumValues data col) - qMin (colNumValues data col))) ∧
        round4 ((v - qMin (colNumValues data col)) /
          (qMax (colNumValues data col) - qMin (colNumValues data col))) ≤ 1) ∧
      (v = qMin (colNumValues data col) →
        round4 ((v - qMin (colNumValues data col)) /
          (qMax (colNumValues data col) - qMin (colNumValues data col))) = 0) ∧
      (v = qMax (colNumValues data col) →
        round4 ((v - qMin (colNumValues data col)) /
          (qMax (colNumValues data col) - qMin (colNumValues data col))) = 1) ∧
      (∀ (d2 : List Row) (c2 : String),
        qMin (colNumValues d2 c2) = qMax (colNumValues d2 c2) → minMaxScale d2 [c2] = d2) := by
  have hlen : i < data.length := by
    by_contra hc
    push_neg at hc
    rw [List.getD_eq_default _ _ hc] at hv
    simp [getCell, jsNumber] at hv
  have hrow : data.getD i [] ∈ data := getD_mem_of_lt data i [] hlen
  have hmem : v ∈ colNumValues data col := by
    rw [colNumValues]
    exact List.mem_filterMap.mpr ⟨data.getD i [], hrow, hv⟩
  have hvals_ne : data.filterMap (fun r => jsNumber (getCell r col)) ≠ [] := by
    rw [← colNumValues]
    exact List.ne_nil_of_mem hmem
  have hmin_le : qMin (colNumValues data col) ≤ v := qMin_le_mem _ v hmem
  have hle_max : v ≤ qMax (colNumValues data col) := mem_le_qMax _ v hmem
  have hlt : qMin (colNumValues data col) < qMax (colNumValues data col) :=
    lt_of_le_of_ne (le_trans hmin_le hle_max) hne
  have hrange : qMax (colNumValues data col) - qMin (colNumValues data col) ≠ 0 :=
    sub_ne_zero.mpr (Ne.symm hne)
  have hone : minMaxScale data [col] = minMaxScaleCol data col := by
    simp [minMaxScale]
  have hrange2 : qMax (data.filterMap (fun r => jsNumber (getCell r col))) -
      qMin (data.filterMap (fun r => jsNumber (getCell r col))) ≠ 0 := by
    rw [← colNumValues_def]
    exact hrange
  have hform : minMaxScaleCol data col =
      data.map (fun row =>
        match jsNumber (getCell row col) with
        | none => row
        | some w => setCell row col (.num (round4 ((w - qMin (colNumValues data col)) /
            (qMax (colNumValues data col) - qMin (colNumValues data col)))))) := by
    simp only [minMaxScaleCol]
    rw [if_neg hvals_ne, if_neg hrange2]
    rfl
  have hx0 : 0 ≤ (v - qMin (colNumValues data col)) /
      (qMax (colNumValues data col) - qMin (colNumValues data col)) :=
    div_nonneg (by linarith) (by linarith)
  have hx1 : (v - qMin (colNumValues data col)) /
      (qMax (colNumValues data col) - qMin (colNumValues data col)) ≤ 1 := by
    rw [div_le_one (by linarith)]
    linarith
  refine ⟨?_, ?_, ⟨round4_nonneg _ hx0, round4_le_one _ hx1⟩, ?_, ?_, ?_⟩
  · rw [hone, hform]
    exact List.length_map data _
  · rw [hone, hform, getD_map_of_lt data _ i [] _ hlen, hv]
    exact getCell_setCell_self _ col _
  · intro hvm
    rw [hvm, sub_self, zero_div]
    exact round4_zero_val
  · intro hvm
    rw [hvm, div_self hrange]
    exact round4_one_val
  · intro d2 c2 h2
    simp [minMaxScale, minMaxScaleCol_noop d2 c2 h2]

/-- Witness for `minMaxScale_unit_interval` on a concrete column. -/
theorem minMaxScale_unit_interval_witness :
    jsNumber (getCell ([[("A", Cell.num 2)], [("A", Cell.num 6)],
        [("A", Cell.num 4)]].getD 0 []) "A") = some 2 ∧
      qMin (colNumValues [[("A", Cell.num 2)], [("A", Cell.num 6)], [("A", Cell.num 4)]] "A") ≠
        qMax (colNumValues [[("A", Cell.num 2)], [("A", Cell.num 6)], [("A", Cell.num 4)]] "A") ∧
      getCell ((minMaxScale [[("A", Cell.num 2)], [("A", Cell.num 6)],
          [("A", Cell.num 4)]] ["A"]).getD 0 []) "A" =
        some (.num (round4 ((2 - qMin (colNumValues [[("A", Cell.num 2)], [("A", Cell.num 6)],
          [("A", Cell.num 4)]] "A")) / (qMax (colNumValues [[("A", Cell.num 2)],
          [("A", Cell.num 6)], [("A", Cell.num 4)]] "A") - qMin (colNumValues
          [[("A", Cell.num 2)], [("A", Cell.num 6)], [("A", Cell.num 4)]] "A"))))) ∧
      (2 = qMin (colNumValues [[("A", Cell.num 2)], [("A", Cell.num 6)],
          [("A", Cell.num 4)]] "A") →
        round4 ((2 - qMin (colNumValues [[("A", Cell.num 2)], [("A", Cell.num 6)],
          [("A", Cell.num 4)]] "A")) / (qMax (colNumValues [[("A", Cell.num 2)],
          [("A", Cell.num 6)], [("A", Cell.num 4)]] "A") - qMin (colNumValues
          [[("A", Cell.num 2)], [("A", Cell.num 6)], [("A", Cell.num 4)]] "A"))) = 0) :=
  have h := minMaxScale_unit_interval [[("A", Cell.num 2)], [("A", Cell.num 6)],
    [("A", Cell.num 4)]] "A" 0 2 (by with_unfolding_all decide) (by with_unfolding_all decide)
  ⟨by with_unfolding_all decide, by with_unfolding_all decide, h.2.1, h.2.2.2.1⟩

/-! ## NaN-cell preservation lemmas -/

theorem cellwise_preserve (f : Row → Row) (col : String)
    (hf1 : ∀ r, jsNumber (getCell r col) = none → f r = r)
    (hf2 : ∀ r, f r = r ∨ ∃ x, f r = setCell r col x)
    (data : List Row) (i : ℕ) (c2 : String)
    (h : jsNumber (getCell (data.getD i []) c2) = none) :
    getCell ((data.map f).getD i []) c2 = getCell (data.getD i []) c2 := by
  by_cases hlen : i < data.length
  · rw [getD_map_of_lt data f i [] [] hlen]
    by_cases hcol : c2 = col
    · subst hcol
      rw [hf1 _ h]
    · rcases hf2 (data.getD i []) with h2 | ⟨x, h2⟩
      · rw [h2]
      · rw [h2]
        exact getCell_setCell_ne _ col x c2 hcol
  · push_neg at hlen
    rw [List.getD_eq_default _ _ hlen, List.getD_eq_default _ _ (by simpa using hlen)]

theorem treatOutliersIQR_nan (data : List Row) (col : String) (i : ℕ) (c2 : String)
    (h : jsNumber (getCell (data.getD i []) c2) = none) :
    (treatOutliersIQR data col).length = data.length ∧
      getCell ((treatOutliersIQR data col).getD i []) c2 = getCell (data.getD i []) c2 := by
  constructor
  · simp only [treatOutliersIQR]
    exact List.length_map data _
  · simp only [treatOutliersIQR]
    apply cellwise_preserve _ col _ _ data i c2 h
    · intro r hr
      simp [hr]
    · intro r
      cases hj : jsNumber (getCell r col) with
      | none => left; simp [hj]
      | some v =>
          by_cases h1 : v < (detectOutliersIQR data col).lowerBound
          · right
            refine ⟨.num (detectOutliersIQR data col).lowerBound, ?_⟩
            simp only [hj]
            rw [if_pos h1]
          · by_cases h2 : (detectOutliersIQR data col).upperBound < v
            · right
              refine ⟨.num (detectOutliersIQR data col).upperBound, ?_⟩
              simp only [hj]
              rw [if_neg h1, if_pos h2]
            · left
              simp only [hj]
              rw [if_neg h1, if_neg h2]

theorem treatOutliersWinsor_nan (data : List Row) (col : String) (lp up : ℕ) (i : ℕ) (c2 : String)
    (h : jsNumber (getCell (data.getD i []) c2) = none) :
    (treatOutliersWinsor data col lp up).length = data.length ∧
      getCell ((treatOutliersWinsor data col lp up).getD i []) c2 =
        getCell (data.getD i []) c2 := by
  rw [treatOutliersWinsor]
  by_cases he : data.filterMap (fun r => jsNumber (getCell r col)) = []
  · rw [if_pos he]
    exact ⟨rfl, rfl⟩
  · rw [if_neg he]
    constructor
    · exact List.length_map data _
    · apply cellwise_preserve _ col _ _ data i c2 h
      · intro r hr
        simp [hr]
      · intro r
        cases hj : jsNumber (getCell r col) with
        | none => left; simp [hj]
        | some v =>
            set sorted := List.insertionSort (· ≤ ·)
              (data.filterMap (fun r => jsNumber (getCell r col))) with hsorted
            by_cases h1 : v < sorted.getD (sorted.length * lp / 100) (sorted.getD 0 0)
            · right
              refine ⟨.num (sorted.getD (sorted.length * lp / 100) (sorted.getD 0 0)), ?_⟩
              simp only [hj]
              rw [if_pos h1]
            · by_cases h2 :
                sorted.getD (sorted.length * up / 100) (sorted.getD (sorted.length - 1) 0) < v
              · right
                refine ⟨.num (sorted.getD (sorted.length * up / 100)
                  (sorted.getD (sorted.length - 1) 0)), ?_⟩
                simp only [hj]
                rw [if_neg h1, if_pos h2]
              · left
                simp only [hj]
                rw [if_neg h1, if_neg h2]

theorem treatOutliersZScore_nan (data : List Row) (col : String) (t : ℚ) (i : ℕ) (c2 : String)
    (h : jsNumber (getCell (data.getD i []) c2) = none) :
    (treatOutliersZScore data col t).length = data.length ∧
      getCell ((treatOutliersZScore data col t).getD i []) c2 =
        getCell (data.getD i []) c2 := by
  cases hst : computeColumnStats data col with
  | none =>
      simp only [treatOutliersZScore, hst]
      exact ⟨by trivial, by trivial⟩
  | some st =>
      simp only [treatOutliersZScore, hst]
      by_cases hv : st.variance = 0
      · rw [if_pos hv]
        exact ⟨rfl, rfl⟩
      · rw [if_neg hv]
        constructor
        · exact List.length_map data _
        · apply cellwise_preserve _ col _ _ data i c2 h
          · intro r hr
            simp [hr]
          · intro r
            cases hj : jsNumber (getCell r col) with
            | none => left; simp [hj]
            | some v =>
                by_cases h1 : t ^ 2 * st.variance < (v - st.mean) ^ 2
                · right
                  refine ⟨.num (round2 (if st.isNormal then st.mean else st.median)), ?_⟩
                  simp only [hj]
                  rw [if_pos h1]
                · left
                  simp only [hj]
                  rw [if_neg h1]

theorem minMaxScaleCol_nan (d : List Row) (c : String) (i : ℕ) (c2 : String)
    (h : jsNumber (getCell (d.getD i []) c2) = none) :
    (minMaxScaleCol d c).length = d.length ∧
      getCell ((minMaxScaleCol d c).getD i []) c2 = getCell (d.getD i []) c2 := by
  rw [minMaxScaleCol]
  by_cases he : d.filterMap (fun r => jsNumber (getCell r c)) = []
  · rw [if_pos he]
    exact ⟨rfl, rfl⟩
  · rw [if_neg he]
    by_cases hr0 : qMax (d.filterMap fun r => jsNumber (getCell r c)) -
        qMin (d.filterMap fun r => jsNumber (getCell r c)) = 0
    · rw [if_pos hr0]
      exact ⟨rfl, rfl⟩
    · rw [if_neg hr0]
      constructor
      · exact List.length_map d _
      · apply cellwise_preserve _ c _ _ d i c2 h
        · intro r hr
          simp [hr]
        · intro r
          cases hj : jsNumber (getCell r c) with
          | none => left; simp [hj]
          | some v =>
              right
              refine ⟨.num (round4 ((v - qMin (d.filterMap fun r => jsNumber (getCell r c))) /
                (qMax (d.filterMap fun r => jsNumber (getCell r c)) -
                  qMin (d.filterMap fun r => jsNumber (getCell r c))))), ?_⟩
              simp only [hj]

theorem standardScaleCol_nan (d : List Row) (c : String) (i : ℕ) (c2 : String)
    (h : jsNumber (getCell (d.getD i []) c2) = none) :
    (standardScaleCol d c).length = d.length ∧
      getCell ((standardScaleCol d c).getD i []) c2 = getCell (d.getD i []) c2 := by
  cases hst : computeColumnStats d c with
  | none =>
      simp only [standardScaleCol, hst]
      exact ⟨by trivial, by trivial⟩
  | some st =>
      simp only [standardScaleCol, hst]
      by_cases hv : st.variance = 0
      · rw [if_pos hv]
        exact ⟨rfl, rfl⟩
      · rw [if_neg hv]
        constructor
        · exact List.length_map d _
        · apply cellwise_preserve _ c _ _ d i c2 h
          · intro r hr
            simp [hr]
          · intro r
            cases hj : jsNumber (getCell r c) with
            | none => left; simp [hj]
            | some v =>
                right
                refine ⟨.num (stdScaledVal st.mean st.variance v), ?_⟩
                simp only [hj]

theorem robustScaleCol_nan (d : List Row) (c : String) (i : ℕ) (c2 : String)
    (h : jsNumber (getCell (d.getD i []) c2) = none) :
    (robustScaleCol d c).length = d.length ∧
      getCell ((robustScaleCol d c).getD i []) c2 = getCell (d.getD i []) c2 := by
  cases hst : computeColumnStats d c with
  | none =>
      simp only [robustScaleCol, hst]
      exact ⟨by trivial, by trivial⟩
  | some st =>
      simp only [robustScaleCol, hst]
      by_cases hv : st.iqr = 0
      · rw [if_pos hv]
        exact ⟨rfl, rfl⟩
      · rw [if_neg hv]
        constructor
        · exact List.length_map d _
        · apply cellwise_preserve _ c _ _ d i c2 h
          · intro r hr
            simp [hr]
          · intro r
            cases hj : jsNumber (getCell r c) with
            | none => left; simp [hj]
            | some v =>
                right
                refine ⟨.num (round4 ((v - st.median) / st.iqr)), ?_⟩
                simp only [hj]

theorem foldl_nan_preserve (step : List Row → String → List Row)
    (hstep : ∀ (d : List Row) (c : String) (i : ℕ) (c2 : String),
      jsNumber (getCell (d.getD i []) c2) = none →
        (step d c).length = d.length ∧
          getCell ((step d c).getD i []) c2 = getCell (d.getD i []) c2)
    (hlen : ∀ (d : List Row) (c : String), (step d c).length = d.length) :
    ∀ (cols : List String) (d : List Row) (i : ℕ) (c2 : String),
      (cols.foldl step d).length = d.length ∧
        (jsNumber (getCell (d.getD i []) c2) = none →
          getCell ((cols.foldl step d).getD i []) c2 = getCell (d.getD i []) c2) := by
  intro cols
  induction cols with
  | nil => intro d i c2; exact ⟨rfl, fun _ => rfl⟩
  | cons c cs ih =>
      intro d i c2
      constructor
      · simp only [List.foldl_cons]
        rw [(ih (step d c) i c2).1, hlen d c]
      · intro h
        simp only [List.foldl_cons]
        have h1 := (hstep d c i c2 h).2
        have h2 : jsNumber (getCell ((step d c).getD i []) c2) = none := by
          rw [h1]; exact h
        rw [(ih (step d c) i c2).2 h2, h1]

theorem minMaxScaleCol_length (d : List Row) (c : String) :
    (minMaxScaleCol d c).length = d.length := by
  rw [minMaxScaleCol]
  by_cases he : d.filterMap (fun r => jsNumber (getCell r c)) = []
  · rw [if_pos he]
  · rw [if_neg he]
    by_cases hr0 : qMax (d.filterMap fun r => jsNumber (getCell r c)) -
        qMin (d.filterMap fun r => jsNumber (getCell r c)) = 0
    · rw [if_pos hr0]
    · rw [if_neg hr0]
      exact List.length_map d _

theorem standardScaleCol_length (d : List Row) (c : String) :
    (standardScaleCol d c).length = d.length := by
  cases hst : computeColumnStats d c with
  | none => simp only [standardScaleCol, hst]
  | some st =>
      simp only [standardScaleCol, hst]
      by_cases hv : st.variance = 0
      · rw [if_pos hv]
      · rw [if_neg hv]
        exact List.length_map d _

theorem robustScaleCol_length (d : List Row) (c : String) :
    (robustScaleCol d c).length = d.length := by
  cases hst : computeColumnStats d c with
  | none => simp only [robustScaleCol, hst]
  | some st =>
      simp only [robustScaleCol, hst]
      by_cases hv : st.iqr = 0
      · rw [if_pos hv]
      · rw [if_neg hv]
        exact List.length_map d _

/-- Claim C10: for min-max, standard and robust scaling and for all three
outlier treatments (IQR clamp, winsorization at any percentiles, z-score
replacement at any threshold), every cell whose value does not parse as a
number under the operator's `Number(...)` coercion is returned unchanged,
and the operation preserves the row count (all six operators are total by
construction). -/
theorem scaling_treatment_nan_cells_unchanged (data : List Row) (cols : List String)
    (col : String) (lp up : ℕ) (t : ℚ) (i : ℕ) (c2 : String)
    (h : jsNumber (getCell (data.getD i []) c2) = none) :
    ((minMaxScale data cols).length = data.length ∧
        getCell ((minMaxScale data cols).getD i []) c2 = getCell (data.getD i []) c2) ∧
      ((standardScale data cols).length = data.length ∧
        getCell ((standardScale data cols).getD i []) c2 = getCell (data.getD i []) c2) ∧
      ((robustScale data cols).length = data.length ∧
        getCell ((robustScale data cols).getD i []) c2 = getCell (data.getD i []) c2) ∧
      ((treatOutliersIQR data col).length = data.length ∧
        getCell ((treatOutliersIQR data col).getD i []) c2 = getCell (data.getD i []) c2) ∧
      ((treatOutliersWinsor data col lp up).length = data.length ∧
        getCell ((treatOutliersWinsor data col lp up).getD i []) c2 =
          getCell (data.getD i []) c2) ∧
      ((treatOutliersZScore data col t).length = data.length ∧
        getCell ((treatOutliersZScore data col t).getD i []) c2 =
          getCell (data.getD i []) c2) := by
  have h1 := foldl_nan_preserve minMaxScaleCol minMaxScaleCol_nan minMaxScaleCol_length
    cols data i c2
  have h2 := foldl_nan_preserve standardScaleCol standardScaleCol_nan standardScaleCol_length
    cols data i c2
  have h3 := foldl_nan_preserve robustScaleCol robustScaleCol_nan robustScaleCol_length
    cols data i c2
  exact ⟨⟨h1.1, h1.2 h⟩, ⟨h2.1, h2.2 h⟩, ⟨h3.1, h3.2 h⟩,
    treatOutliersIQR_nan data col i c2 h,
    treatOutliersWinsor_nan data col lp up i c2 h,
    treatOutliersZScore_nan data col t i c2 h⟩

/-- Witness for `scaling_treatment_nan_cells_unchanged`: a text cell in a
numeric column survives all six operators untouched. -/
theorem scaling_treatment_nan_cells_unchanged_witness :
    jsNumber (getCell ([[("A", Cell.str "x")], [("A", Cell.num 1)],
        [("A", Cell.num 2)]].getD 0 []) "A") = none ∧
      getCell ((minMaxScale [[("A", Cell.str "x")], [("A", Cell.num 1)],
          [("A", Cell.num 2)]] ["A"]).getD 0 []) "A" = some (Cell.str "x") ∧
      getCell ((treatOutliersZScore [[("A", Cell.str "x")], [("A", Cell.num 1)],
          [("A", Cell.num 2)]] "A" 3).getD 0 []) "A" = some (Cell.str "x") := by
  have h := scaling_treatment_nan_cells_unchanged
    [[("A", Cell.str "x")], [("A", Cell.num 1)], [("A", Cell.num 2)]] ["A"] "A" 5 95 3 0 "A"
    (by with_unfolding_all decide)
  refine ⟨by with_unfolding_all decide, ?_, ?_⟩
  · rw [h.1.2]
    with_unfolding_all decide
  · rw [h.2.2.2.2.2.2]
    with_unfolding_all decide

/-! ## One-hot encoding lemmas -/

theorem appendKey_ne (col v : String) : col ≠ col ++ "_" ++ v := by
  intro h
  have := congrArg String.length h
  rw [String.length_append, String.length_append] at this
  have h1 : ("_" : String).length = 1 := rfl
  omega

theorem appendKey_inj (col v1 v2 : String) (h : col ++ "_" ++ v1 = col ++ "_" ++ v2) :
    v1 = v2 := by
  have hd := congrArg String.data h
  rw [String.data_append, String.data_append, String.data_append, String.data_append] at hd
  have h2 := List.append_cancel_left hd
  cases v1
  cases v2
  exact congrArg String.mk (by simpa using h2)

theorem uniqFirst_nodup (l : List String) :
    ∀ seen, (uniqFirst l seen).Nodup ∧ ∀ x ∈ uniqFirst l seen, x ∉ seen := by
  induction l with
  | nil => intro seen; simp [uniqFirst]
  | cons x xs ih =>
      intro seen
      by_cases h : x ∈ seen
      · simp only [uniqFirst, h, if_pos]
        exact ih seen
      · simp only [uniqFirst, h, if_neg, not_false_iff]
        obtain ⟨hnd, hmem⟩ := ih (x :: seen)
        refine ⟨List.nodup_cons.mpr ⟨fun hc => ?_, hnd⟩, ?_⟩
        · exact (hmem x hc) (List.mem_cons_self x seen)
        · intro y hy
          rcases List.mem_cons.mp hy with hy | hy
          · exact hy ▸ h
          · intro hys
            exact (hmem y hy) (List.mem_cons_of_mem x hys)

theorem mem_uniqFirst (l : List String) :
    ∀ seen x, x ∈ uniqFirst l seen ↔ (x ∈ l ∧ x ∉ seen) := by
  induction l with
  | nil => intro seen x; simp [uniqFirst]
  | cons y ys ih =>
      intro seen x
      by_cases h : y ∈ seen
      · simp only [uniqFirst, h, if_pos]
        rw [ih seen x]
        constructor
        · exact fun ⟨h1, h2⟩ => ⟨List.mem_cons_of_mem y h1, h2⟩
        · rintro ⟨h1, h2⟩
          rcases List.mem_cons.mp h1 with h1 | h1
          · exact absurd (h1 ▸ h) h2
          · exact ⟨h1, h2⟩
      · simp only [uniqFirst, h, if_neg, not_false_iff]
        constructor
        · intro hx
          rcases List.mem_cons.mp hx with hx | hx
          · exact ⟨hx ▸ List.mem_cons_self y ys, hx ▸ h⟩
          · obtain ⟨h1, h2⟩ := (ih (y :: seen) x).mp hx
            exact ⟨List.mem_cons_of_mem y h1,
              fun hc => h2 (List.mem_cons_of_mem y hc)⟩
        · rintro ⟨h1, h2⟩
          rcases List.mem_cons.mp h1 with h1 | h1
          · exact h1 ▸ List.mem_cons_self y _
          · by_cases hxy : x = y
            · exact hxy ▸ List.mem_cons_self y _
            · exact List.mem_cons_of_mem y ((ih (y :: seen) x).mpr
                ⟨h1, by simp [hxy, h2]⟩)

theorem oneHotAddCols_length (col : String) (vals : List String) :
    ∀ rows : List Row, (oneHotAddCols col rows vals).length = rows.length := by
  induction vals with
  | nil => intro rows; rfl
  | cons v vs ih =>
      intro rows
      rw [oneHotAddCols, ih]
      exact List.length_map rows _

theorem oneHotAddCols_getCell (col : String) (vals : List String) :
    ∀ (rows : List Row) (i : ℕ) (c : String), (∀ v ∈ vals, c ≠ col ++ "_" ++ v) →
      getCell ((oneHotAddCols col rows vals).getD i []) c = getCell (rows.getD i []) c := by
  induction vals with
  | nil => intro rows i c hc; rfl
  | cons v vs ih =>
      intro rows i c hc
      rw [oneHotAddCols]
      rw [ih _ i c (fun w hw => hc w (List.mem_cons_of_mem v hw))]
      by_cases hi : i < rows.length
      · rw [getD_map_of_lt rows _ i [] [] hi]
        exact getCell_setCell_ne _ _ _ c (hc v (List.mem_cons_self v vs))
      · push_neg at hi
        rw [List.getD_eq_default _ _ (by simpa using hi), List.getD_eq_default _ _ hi]

theorem oneHotAddCols_newcol (col : String) (vals : List String) :
    ∀ (rows : List Row) (i : ℕ) (v : String), vals.Nodup → v ∈ vals → i < rows.length →
      getCell ((oneHotAddCols col rows vals).getD i []) (col ++ "_" ++ v) =
        some (.num (if cellKeyD (getCell (rows.getD i []) col) = v then 1 else 0)) := by
  induction vals with
  | nil => intro rows i v hnd hv; simp at hv
  | cons w ws ih =>
      intro rows i v hnd hv hi
      rw [oneHotAddCols]
      rcases List.mem_cons.mp hv with hv | hv
      · subst hv
        have hfresh : ∀ u ∈ ws, (col ++ "_" ++ v) ≠ col ++ "_" ++ u := by
          intro u hu hc
          exact (List.nodup_cons.mp hnd).1 ((appendKey_inj col v u hc) ▸ hu)
        rw [oneHotAddCols_getCell col ws _ i _ hfresh]
        rw [getD_map_of_lt rows _ i [] [] hi]
        exact getCell_setCell_self _ _ _
      · have hlen2 : i < (rows.map (fun row => setCell row (col ++ "_" ++ w)
            (.num (if cellKeyD (getCell row col) = w then 1 else 0)))).length := by
          simpa using hi
        rw [ih _ i v (List.nodup_cons.mp hnd).2 hv hlen2]
        rw [getD_map_of_lt rows _ i [] [] hi]
        rw [getCell_setCell_ne _ _ _ col (appendKey_ne col w)]

theorem oneHotAddCols_keys (col : String) (vals : List String) :
    ∀ (rows : List Row) (i : ℕ), vals.Nodup → i < rows.length →
      (∀ v ∈ vals, (col ++ "_" ++ v) ∉ rowKeys (rows.getD i [])) →
      rowKeys ((oneHotAddCols col rows vals).getD i []) =
        rowKeys (rows.getD i []) ++ vals.map (fun v => col ++ "_" ++ v) := by
  induction vals with
  | nil => intro rows i hnd hi hf; simp [oneHotAddCols]
  | cons w ws ih =>
      intro rows i hnd hi hf
      rw [oneHotAddCols]
      have hlen2 : i < (rows.map (fun row => setCell row (col ++ "_" ++ w)
          (.num (if cellKeyD (getCell row col) = w then 1 else 0)))).length := by
        simpa using hi
      have hkeys2 : rowKeys ((rows.map (fun row => setCell row (col ++ "_" ++ w)
          (.num (if cellKeyD (getCell row col) = w then 1 else 0)))).getD i []) =
          rowKeys (rows.getD i []) ++ [(col ++ "_" ++ w)] := by
        rw [getD_map_of_lt rows _ i [] [] hi]
        rw [setCell_of_not_mem _ _ _ (hf w (List.mem_cons_self w ws))]
        simp [rowKeys]
      rw [ih _ i (List.nodup_cons.mp hnd).2 hlen2 ?_, hkeys2]
      · simp
      · intro v hv
        rw [hkeys2]
        intro hc
        rcases List.mem_append.mp hc with hc | hc
        · exact (hf v (List.mem_cons_of_mem w hv)) hc
        · have : col ++ "_" ++ v = col ++ "_" ++ w := by simpa using hc
          exact (List.nodup_cons.mp hnd).1 ((appendKey_inj col v w this) ▸ hv)

theorem filter_ne_length (l : List String) (c : String) (hnd : l.Nodup) (hc : c ∈ l) :
    (l.filter (fun x => x ≠ c)).length = l.length - 1 := by
  induction l with
  | nil => simp at hc
  | cons x xs ih =>
      by_cases hxc : x = c
      · subst hxc
        have hnotin : x ∉ xs := (List.nodup_cons.mp hnd).1
        rw [List.filter_cons_of_neg (by simp)]
        rw [List.filter_eq_self.mpr ?_]
        · simp
        · intro a ha
          simp only [ne_eq, decide_eq_true_eq]
          exact fun hac => hnotin (hac ▸ ha)
      · have hcxs : c ∈ xs := by
          rcases List.mem_cons.mp hc with h | h
          · exact absurd h.symm hxc
          · exact h
        have hlen : 1 ≤ xs.length := List.length_pos.mpr (List.ne_nil_of_mem hcxs)
        rw [List.filter_cons_of_pos (by simp [hxc])]
        rw [List.length_cons, ih (List.nodup_cons.mp hnd).2 hcxs]
        simp only [List.length_cons]
        omega

theorem nonNull_map_eq (data : List Row) (col : String)
    (hm : ∀ r ∈ data, missingOpt (getCell r col) = false) :
    (nonNullCells data col).map cellKeyC =
      data.map (fun r => cellKeyD (getCell r col)) := by
  induction data with
  | nil => rfl
  | cons r rest ih =>
      have hr := hm r (List.mem_cons_self r rest)
      have ihr := ih (fun r2 h2 => hm r2 (List.mem_cons_of_mem r h2))
      cases hg : getCell r col with
      | none => rw [hg] at hr; simp [missingOpt] at hr
      | some c =>
          rw [hg] at hr
          simp only [missingOpt] at hr
          rw [nonNullCells] at ihr ⊢
          simp only [List.filterMap_cons, hg, hr, if_neg, Bool.false_eq_true, not_false_iff]
          rw [List.map_cons, List.map_cons, ihr]
          have hcm : c ≠ .missing := by
            intro hc
            rw [hc] at hr
            simp [isMissingCell] at hr
          simp [cellKeyD, hcm, hg]

theorem oneHotEncode_singleton (data : List Row) (col : String) :
    oneHotEncode data [col] =
      ((oneHotAddCols col data
          (uniqFirst (data.map fun r => cellKeyD (getCell r col)) [])).map
            (fun row => removeKey row col),
        (uniqFirst (data.map fun r => cellKeyD (getCell r col)) []).map
          (fun v => col ++ "_" ++ v)) := by
  simp [oneHotEncode]

/-- Claim C3, counterexample: one-hot encoding a column containing a
missing cell treats the missing sentinel as one more unique value: with one
distinct non-missing value (`k = 1`) it produces two indicator columns
(`A_a` and `A_`), and the column count rises from 1 to 2 instead of
`k - 1 = 0`. -/
theorem oneHotEncode_missing_value_cex :
    (oneHotEncode [[("A", Cell.str "a")], [("A", Cell.missing)]] ["A"]).2 = ["A_a", "A_"] ∧
      (uniqFirst ((nonNullCells [[("A", Cell.str "a")], [("A", Cell.missing)]] "A").map
        cellKeyC) []).length = 1 ∧
      rowKeys ((oneHotEncode [[("A", Cell.str "a")],
        [("A", Cell.missing)]] ["A"]).1.getD 0 []) = ["A_a", "A_"] ∧
      (rowKeys ((oneHotEncode [[("A", Cell.str "a")],
        [("A", Cell.missing)]] ["A"]).1.getD 0 [])).length = 2 := by
  with_unfolding_all decide

/-- Claim C3, amended: for a column with no missing cells, whose `k`
distinct values (`k` = the number of distinct string keys, which under the
no-missing hypothesis coincides with the distinct non-missing values) all
generate fresh column names, one-hot encoding appends exactly the `k`
indicator columns `{col}_{v}` after the existing columns in first-seen
value order, sets each to `1`/`0` by equality with the row's source value,
removes the source column, and changes the per-row column count by
`k - 1`. -/
theorem oneHotEncode_spec (data : List Row) (col : String) (i : ℕ)
    (hm : ∀ r ∈ data, missingOpt (getCell r col) = false)
    (hfresh : ∀ r ∈ data, ∀ v ∈ uniqFirst (data.map fun r2 => cellKeyD (getCell r2 col)) [],
      (col ++ "_" ++ v) ∉ rowKeys r)
    (hi : i < data.length)
    (hcol : col ∈ rowKeys (data.getD i []))
    (hnd : (rowKeys (data.getD i [])).Nodup) :
    (oneHotEncode data [col]).2 =
        (uniqFirst (data.map fun r2 => cellKeyD (getCell r2 col)) []).map
          (fun v => col ++ "_" ++ v) ∧
      (oneHotEncode data [col]).1.length = data.length ∧
      uniqFirst (data.map fun r2 => cellKeyD (getCell r2 col)) [] =
        uniqFirst ((nonNullCells data col).map cellKeyC) [] ∧
      rowKeys ((oneHotEncode data [col]).1.getD i []) =
        (rowKeys (data.getD i [])).filter (fun x => x ≠ col) ++
          (uniqFirst (data.map fun r2 => cellKeyD (getCell r2 col)) []).map
            (fun v => col ++ "_" ++ v) ∧
      (rowKeys ((oneHotEncode data [col]).1.getD i [])).length =
        (rowKeys (data.getD i [])).length - 1 +
          (uniqFirst (data.map fun r2 => cellKeyD (getCell r2 col)) []).length ∧
      (∀ v ∈ uniqFirst (data.map fun r2 => cellKeyD (getCell r2 col)) [],
        getCell ((oneHotEncode data [col]).1.getD i []) (col ++ "_" ++ v) =
          some (.num (if cellKeyD (getCell (data.getD i []) col) = v then 1 else 0))) := by
  have hudnd : (uniqFirst (data.map fun r2 => cellKeyD (getCell r2 col)) []).Nodup :=
    (uniqFirst_nodup _ []).1
  have hres := oneHotEncode_singleton data col
  have hAi : i < (oneHotAddCols col data
      (uniqFirst (data.map fun r2 => cellKeyD (getCell r2 col)) [])).length := by
    rw [oneHotAddCols_length]
    exact hi
  have hkeysA := oneHotAddCols_keys col
    (uniqFirst (data.map fun r2 => cellKeyD (getCell r2 col)) []) data i hudnd hi
    (fun v hv => hfresh (data.getD i []) (getD_mem_of_lt data i [] hi) v hv)
  have hdkeys : rowKeys ((oneHotEncode data [col]).1.getD i []) =
      (rowKeys (data.getD i [])).filter (fun x => x ≠ col) ++
        (uniqFirst (data.map fun r2 => cellKeyD (getCell r2 col)) []).map
          (fun v => col ++ "_" ++ v) := by
    have hmapfilter : ((uniqFirst (data.map fun r2 => cellKeyD (getCell r2 col)) []).map
        (fun v => col ++ "_" ++ v)).filter (fun x => x ≠ col) =
        (uniqFirst (data.map fun r2 => cellKeyD (getCell r2 col)) []).map
          (fun v => col ++ "_" ++ v) := by
      apply List.filter_eq_self.mpr
      intro x hx
      obtain ⟨v, hv, rfl⟩ := List.mem_map.mp hx
      simp only [ne_eq, decide_eq_true_eq]
      exact Ne.symm (appendKey_ne col v)
    rw [hres]
    rw [getD_map_of_lt _ _ i [] [] hAi, rowKeys_removeKey, hkeysA, List.filter_append, hmapfilter]
  refine ⟨?_, ?_, ?_, hdkeys, ?_, ?_⟩
  · rw [hres]
  · rw [hres]
    simp only [List.length_map]
    exact oneHotAddCols_length col _ data
  · rw [nonNull_map_eq data col hm]
  · rw [hdkeys, List.length_append, List.length_map,
      filter_ne_length _ col hnd hcol]
  · intro v hv
    rw [hres]
    rw [getD_map_of_lt _ _ i [] [] hAi]
    rw [getCell_removeKey_ne _ col _ (Ne.symm (appendKey_ne col v))]
    exact oneHotAddCols_newcol col _ data i v hudnd hv hi

/-- Witness for `oneHotEncode_spec` on a concrete two-column table. -/
theorem oneHotEncode_spec_witness :
    (∀ r ∈ [[("A", Cell.str "a"), ("B", Cell.num 1)], [("A", Cell.str "b"), ("B", Cell.num 2)]],
        missingOpt (getCell r "A") = false) ∧
      (∀ r ∈ [[("A", Cell.str "a"), ("B", Cell.num 1)], [("A", Cell.str "b"), ("B", Cell.num 2)]],
        ∀ v ∈ uniqFirst ([[("A", Cell.str "a"), ("B", Cell.num 1)],
          [("A", Cell.str "b"), ("B", Cell.num 2)]].map fun r2 => cellKeyD (getCell r2 "A")) [],
          ("A" ++ "_" ++ v) ∉ rowKeys r) ∧
      (oneHotEncode [[("A", Cell.str "a"), ("B", Cell.num 1)],
          [("A", Cell.str "b"), ("B", Cell.num 2)]] ["A"]).2 =
        (uniqFirst ([[("A", Cell.str "a"), ("B", Cell.num 1)],
          [("A", Cell.str "b"), ("B", Cell.num 2)]].map fun r2 => cellKeyD (getCell r2 "A")) []).map
          (fun v => "A" ++ "_" ++ v) ∧
      (rowKeys ((oneHotEncode [[("A", Cell.str "a"), ("B", Cell.num 1)],
          [("A", Cell.str "b"), ("B", Cell.num 2)]] ["A"]).1.getD 0 [])).length =
        (rowKeys ([[("A", Cell.str "a"), ("B", Cell.num 1)],
          [("A", Cell.str "b"), ("B", Cell.num 2)]].getD 0 [])).length - 1 +
          (uniqFirst ([[("A", Cell.str "a"), ("B", Cell.num 1)],
            [("A", Cell.str "b"), ("B", Cell.num 2)]].map fun r2 =>
              cellKeyD (getCell r2 "A")) []).length :=
  have h := oneHotEncode_spec
    [[("A", Cell.str "a"), ("B", Cell.num 1)], [("A", Cell.str "b"), ("B", Cell.num 2)]] "A" 0
    (by with_unfolding_all decide) (by with_unfolding_all decide)
    (by with_unfolding_all decide) (by with_unfolding_all decide) (by with_unfolding_all decide)
  ⟨by with_unfolding_all decide, by with_unfolding_all decide, h.1, h.2.2.2.2.1⟩

/-! ## Constant-column statistics lemmas -/

theorem filterMap_replicate_some {α β : Type} (f : α → Option β) (r : α) (c : β)
    (h : f r = some c) (n : ℕ) : (List.replicate n r).filterMap f = List.replicate n c := by
  induction n with
  | zero => rfl
  | succ m ih =>
      rw [List.replicate_succ, List.replicate_succ, List.filterMap_cons, h, ih]

theorem insertionSort_replicate (n : ℕ) (c : ℚ) :
    List.insertionSort (· ≤ ·) (List.replicate n c) = List.replicate n c := by
  have hperm := List.perm_insertionSort (· ≤ ·) (List.replicate n c)
  rw [List.eq_replicate]
  refine ⟨by rw [hperm.length_eq, List.length_replicate], ?_⟩
  intro b hb
  exact List.eq_of_mem_replicate (hperm.mem_iff.mp hb)

theorem getD_replicate_lt (n i : ℕ) (c d : ℚ) (h : i < n) :
    (List.replicate n c).getD i d = c := by
  rw [List.getD_eq_getElem _ _ (by simpa using h)]
  simp

theorem foldl_natMax_replicate (k m : ℕ) : ∀ a, a ≤ m →
    (List.replicate k m).foldl Nat.max a = if k = 0 then a else m := by
  induction k with
  | zero => intro a ha; simp
  | succ j ih =>
      intro a ha
      rw [List.replicate_succ, List.foldl_cons,
        show Nat.max a m = m by unfold Nat.max; exact max_eq_right ha,
        ih m le_rfl]
      by_cases hj : j = 0 <;> simp [hj]

/-- Claim C2 (code-level behaviour): on a constant column `c` repeated
`n ≥ 1` times, `computeColumnStats` returns `mean = median = mode = c`,
`variance = 0` (hence `std = √0 = 0`), `iqr = 0` — but for `n > 2` the
skewness is `NaN` (`skewIsNaN`), not the `0` the specification states: the
source guards the Fisher-Pearson formula only by `n > 2`, not by
`std ≠ 0`, and `((c - c)/0)³` is `0/0 = NaN`; consequently `isNormal` and
`isSymmetric` are both `false` for constant columns with `n > 2`. -/
theorem computeColumnStats_constant (n : ℕ) (c : ℚ) (col : String) (hn : 1 ≤ n) :
    computeColumnStats (List.replicate n [(col, Cell.num c)]) col =
      some { mean := c, median := c, mode := c, variance := 0, min := c, max := c,
             q1 := c, q3 := c, iqr := 0, skewNum := 0,
             skewIsNaN := decide (2 < n), isNormal := decide (n ≤ 2),
             isSymmetric := decide (n ≤ 2) } := by
  have hf : statNumber (getCell ([(col, Cell.num c)] : Row) col) = some c := by
    simp [getCell, statNumber]
  have hvals : (List.replicate n ([(col, Cell.num c)] : Row)).filterMap
      (fun r => statNumber (getCell r col)) = List.replicate n c :=
    filterMap_replicate_some (fun r => statNumber (getCell r col)) [(col, Cell.num c)] c hf n
  have hne : List.replicate n c ≠ [] := by
    intro h
    rw [List.replicate_eq_nil] at h  -- wrong name fallback below
    omega
  have hn0 : (n : ℚ) ≠ 0 := Nat.cast_ne_zero.mpr (by omega)
  have hmean : (List.replicate n c).sum / (n : ℚ) = c := by
    rw [List.sum_replicate, nsmul_eq_mul, mul_div_cancel_left₀ _ hn0]
  have hvar : ((List.replicate n c).map (fun v => (v - c) ^ 2)).sum / (n : ℚ) = 0 := by
    rw [List.map_replicate]
    simp
  simp only [computeColumnStats]
  rw [hvals, if_neg hne, insertionSort_replicate, List.length_replicate, hmean]
  rw [Option.some_inj, ColumnStats.mk.injEq]
  refine ⟨rfl, ?_, ?_, hvar, ?_, ?_, ?_, ?_, ?_, ?_, ?_, ?_, ?_⟩
  · by_cases hpar : n % 2 = 0
    · rw [if_pos hpar, getD_replicate_lt _ _ _ _ (by omega), getD_replicate_lt _ _ _ _ (by omega)]
      ring
    · rw [if_neg hpar, getD_replicate_lt _ _ _ _ (by omega)]
  · obtain ⟨m, rfl⟩ : ∃ m, n = m + 1 := ⟨n - 1, by omega⟩
    have hmap : (List.replicate (m + 1) c).map (fun v => (List.replicate (m + 1) c).count v) =
        List.replicate (m + 1) (m + 1) := by
      rw [List.map_replicate, List.count_replicate]
      simp
    rw [hmap, foldl_natMax_replicate (m + 1) (m + 1) 0 (by omega)]
    simp only [Nat.succ_ne_zero, if_neg, not_false_iff]
    rw [List.replicate_succ, List.find?_cons_of_pos _ (by simp [List.count_replicate])]
    rfl
  · exact getD_replicate_lt _ _ _ _ (by omega)
  · exact getD_replicate_lt _ _ _ _ (by omega)
  · exact getD_replicate_lt _ _ _ _ (by omega)
  · exact getD_replicate_lt _ _ _ _ (by omega)
  · rw [getD_replicate_lt _ _ _ _ (by omega), getD_replicate_lt _ _ _ _ (by omega)]
    ring
  · rw [hvar, if_neg (by simp)]
  · rw [hvar]
    simp
  · rw [hvar, if_neg (by simp)]
    by_cases h2 : 2 < n
    · simp [h2, show ¬ n ≤ 2 by omega]
    · simp [h2, show n ≤ 2 by omega]
  · rw [hvar, if_neg (by simp)]
    by_cases h2 : 2 < n
    · simp [h2, show ¬ n ≤ 2 by omega]
    · simp [h2, show n ≤ 2 by omega]

/-- Witness for `computeColumnStats_constant` at the failing input
`[5, 5, 5]`: every round-trip field holds except the skewness, which is
`NaN` (and `isNormal`/`isSymmetric` are `false`). -/
theorem computeColumnStats_constant_witness :
    1 ≤ 3 ∧
      computeColumnStats (List.replicate 3 [("A", Cell.num 5)]) "A" =
        some { mean := 5, median := 5, mode := 5, variance := 0, min := 5, max := 5,
               q1 := 5, q3 := 5, iqr := 0, skewNum := 0,
               skewIsNaN := true, isNormal := false, isSymmetric := false } :=
  ⟨by omega, computeColumnStats_constant 3 5 "A" (by omega)⟩

/-! ## Autopilot Missing-phase claims -/

/-- Claim C1, counterexample: for the table `A = [missing, 1, 1]`,
deduplication leaves `[missing, 1]`, so the post-dedup `null_percentage` is
`50 > 40` and the claimed rule prescribes `drop`; but `runAutomation`
branches on the pre-dedup metadata (`null_percentage = 100/3 ≤ 40`) and
imputes by `median` instead, producing a 2-row table where the claim
demands a 1-row table. -/
theorem autoMissing_pre_dedup_percentage_cex :
    (removeDuplicates [[("A", Cell.missing)], [("A", Cell.num 1)], [("A", Cell.num 1)]]).1 =
        [[("A", Cell.missing)], [("A", Cell.num 1)]] ∧
      (buildColumn [[("A", Cell.missing)], [("A", Cell.num 1)], [("A", Cell.num 1)]] "A").type =
        ColType.numeric ∧
      (buildColumn [[("A", Cell.missing)], [("A", Cell.num 1)],
        [("A", Cell.num 1)]] "A").nullPercentage = 100 / 3 ∧
      specMissingRulePost [[("A", Cell.missing)], [("A", Cell.num 1)]]
        (buildColumn [[("A", Cell.missing)], [("A", Cell.num 1)],
          [("A", Cell.num 1)]] "A").type "A" = .drop ∧
      autoMissingMethod [[("A", Cell.missing)], [("A", Cell.num 1)]]
        (buildColumn [[("A", Cell.missing)], [("A", Cell.num 1)], [("A", Cell.num 1)]] "A") =
        .median ∧
      autoMissingPhase (buildDatasetInfo [[("A", Cell.missing)], [("A", Cell.num 1)],
          [("A", Cell.num 1)]] ["A"]).columnInfo [[("A", Cell.missing)], [("A", Cell.num 1)]] =
        [[("A", Cell.num 1)], [("A", Cell.num 1)]] ∧
      applyMissingMethod .drop [[("A", Cell.missing)], [("A", Cell.num 1)]] "A" =
        [[("A", Cell.num 1)]] ∧
      autoMissingPhase (buildDatasetInfo [[("A", Cell.missing)], [("A", Cell.num 1)],
          [("A", Cell.num 1)]] ["A"]).columnInfo [[("A", Cell.missing)], [("A", Cell.num 1)]] ≠
        applyMissingMethod (specMissingRulePost [[("A", Cell.missing)], [("A", Cell.num 1)]]
          (buildColumn [[("A", Cell.missing)], [("A", Cell.num 1)],
            [("A", Cell.num 1)]] "A").type "A") [[("A", Cell.missing)], [("A", Cell.num 1)]]
          "A" := by
  with_unfolding_all decide

/-- Claim C1, amended: for every working table and every column of numeric
or categorical type, the autopilot Missing phase chooses exactly the
spec's decision rule *with* `null_count`/`null_percentage` taken from the
invocation-time (pre-dedup) column metadata while symmetry and outliers are
evaluated on the working data, and applies the operator the chosen method
names (`drop` filters the rows whose cell is missing; numeric columns with
no parseable value fall back to `mode` on both sides). -/
theorem autoMissing_method_spec (current : List Row) (col : DataColumn)
    (h : col.type = ColType.numeric ∨ col.type = ColType.categorical) :
    autoMissingMethod current col = specMissingRulePre current col ∧
      autoMissingStep current col =
        applyMissingMethod (specMissingRulePre current col) current col.name := by
  have hmain : autoMissingMethod current col = specMissingRulePre current col := by
    rcases h with h | h
    · simp [autoMissingMethod, specMissingRulePre, h]
    · simp [autoMissingMethod, specMissingRulePre, h]
  exact ⟨hmain, by rw [autoMissingStep, hmain]⟩

/-- Witness for `autoMissing_method_spec` at the counterexample column. -/
theorem autoMissing_method_spec_witness :
    ((buildColumn [[("A", Cell.missing)], [("A", Cell.num 1)], [("A", Cell.num 1)]] "A").type =
        ColType.numeric ∨
      (buildColumn [[("A", Cell.missing)], [("A", Cell.num 1)], [("A", Cell.num 1)]] "A").type =
        ColType.categorical) ∧
      (autoMissingMethod [[("A", Cell.missing)], [("A", Cell.num 1)]]
          (buildColumn [[("A", Cell.missing)], [("A", Cell.num 1)], [("A", Cell.num 1)]] "A") =
        specMissingRulePre [[("A", Cell.missing)], [("A", Cell.num 1)]]
          (buildColumn [[("A", Cell.missing)], [("A", Cell.num 1)], [("A", Cell.num 1)]] "A") ∧
        autoMissingStep [[("A", Cell.missing)], [("A", Cell.num 1)]]
            (buildColumn [[("A", Cell.missing)], [("A", Cell.num 1)], [("A", Cell.num 1)]] "A") =
          applyMissingMethod (specMissingRulePre [[("A", Cell.missing)], [("A", Cell.num 1)]]
            (buildColumn [[("A", Cell.missing)], [("A", Cell.num 1)],
              [("A", Cell.num 1)]] "A")) [[("A", Cell.missing)], [("A", Cell.num 1)]]
            (buildColumn [[("A", Cell.missing)], [("A", Cell.num 1)],
              [("A", Cell.num 1)]] "A").name) :=
  ⟨by with_unfolding_all decide,
    autoMissing_method_spec [[("A", Cell.missing)], [("A", Cell.num 1)]]
      (buildColumn [[("A", Cell.missing)], [("A", Cell.num 1)], [("A", Cell.num 1)]] "A")
      (by with_unfolding_all decide)⟩
